import Mathlib

set_option maxRecDepth 4000

/-! # Shallow embedding of the journal-app core

Embeds `src/core/auth.py` (signed session tokens: `_make_token`,
`_decode_token`) and `src/core/importer.py` (import pipeline:
`_parse_date_from_string`, `detect_format`, `parse_zip_750words`,
`parse_single_750words`, `parse_dated_file`, `parse_undated_file`,
`parse_upload`) into Lean.

Strings are `List Char`, byte buffers are `List Nat` (each entry a byte
value).  Python standard-library collaborators are embedded as follows:

* `re` patterns are compiled by hand into explicit scanners that mirror the
  leftmost-match discipline and the greedy/lazy backtracking priorities of
  the three fixed patterns the module uses (ASCII character classes; the
  source never feeds them non-ASCII dates or delimiters).
* `datetime.date` / `datetime.datetime` are structures of calendar fields
  with Python's constructor validation (`dateValid`, `dtValid`), Python's
  field-lexicographic comparison, `isoformat` rendering and a
  `fromisoformat` that accepts exactly the grammar `isoformat` emits (the
  only producer of such strings in this program).
* `base64.urlsafe_b64encode`/`..._b64decode` are embedded bit-faithfully,
  including CPython's non-strict decode discipline: characters outside the
  alphabet are discarded, the first `=` ends the data, and only a data
  length of 1 mod 4 is an error.
* `hmac.new(...).hexdigest()` is kept abstract: every definition that signs
  or verifies takes the raw MAC `mac : List Nat → List Nat → List Nat`
  (key and message to digest bytes) as an argument, with the hex rendering
  embedded concretely.  The server secret is likewise an ambient argument,
  as both `_make_token` and `_decode_token` read the same process-wide
  `_secret()`.
* `json.dumps({"uid": ..., "exp": ...}, separators=(",", ":"))` is embedded
  literally; `json.loads` is embedded on the schema of that payload (any
  other document yields `none`, as the surrounding `try/except` turns every
  other shape into the invalid result in the source).
* `zipfile` is kept abstract: an archive reader
  `zipRead : List Nat → Except (List Char) (List (List Char × List Nat))`
  maps raw bytes either to a `BadZipFile` message or to the member list of
  (name, member bytes); the container format itself is outside the model.
-/

/-! ## Characters, digits, decimal numerals -/

/-- The decimal digit characters, `digitChar d` for `d < 10`. -/
def digitChar (d : Nat) : Char :=
  ['0', '1', '2', '3', '4', '5', '6', '7', '8', '9'].getD d '0'

/-- Python `\d` on ASCII input: `'0' ≤ c ≤ '9'`. -/
def isDigitCh (c : Char) : Bool := 48 ≤ c.toNat && c.toNat ≤ 57

/-- Numeric value of a digit character. -/
def charVal (c : Char) : Nat := c.toNat - 48

/-- Digit expansion worker: most significant digit first, on fuel (the
value itself bounds the digit count). -/
def natDecGo : Nat → Nat → List Char
  | 0, _ => []
  | fuel + 1, n => if n = 0 then [] else natDecGo fuel (n / 10) ++ [digitChar (n % 10)]

/-- Decimal rendering of a natural number, most significant digit first
(Python `str` of a nonnegative `int`). -/
def natDec (n : Nat) : List Char := if n = 0 then ['0'] else natDecGo n n

/-- Value of a most-significant-first digit string. -/
def decNatAux (cs : List Char) : Nat := cs.foldl (fun a c => a * 10 + charVal c) 0

/-! ## Calendar dates (`datetime.date`) -/

/-- `datetime.date`: year, month, day. -/
structure PyDate where
  year : Nat
  month : Nat
  day : Nat
deriving DecidableEq

/-- Gregorian leap-year rule used by `datetime`. -/
def isLeapYear (y : Nat) : Bool := y % 4 = 0 && (y % 100 ≠ 0 || y % 400 = 0)

/-- Days in a month of the proleptic Gregorian calendar. -/
def daysInMonth (y m : Nat) : Nat :=
  if m = 2 then (if isLeapYear y then 29 else 28)
  else if m = 4 || m = 6 || m = 9 || m = 11 then 30
  else 31

/-- `datetime.date(y, m, d)` constructor validation (MINYEAR 1, MAXYEAR 9999). -/
def dateValid (y m d : Nat) : Bool :=
  1 ≤ y && y ≤ 9999 && 1 ≤ m && m ≤ 12 && 1 ≤ d && d ≤ daysInMonth y m

/-- `datetime.date(y, m, d)`: the date, or `none` where Python raises
`ValueError`. -/
def pyDate (y m d : Nat) : Option PyDate :=
  if dateValid y m d then some ⟨y, m, d⟩ else none

/-! ## `_ISO_DATE_RE`: `(\d{4})[-_](\d{2})[-_](\d{2})` -/

/-- A separator of the ISO-like grammar: `[-_]`. -/
def isoSep (c : Char) : Bool := c = '-' || c = '_'

/-- Match `_ISO_DATE_RE` anchored at the head of the string.  The pattern is
fixed-width, so there is no backtracking; the result is (year, month, day)
as matched numerals. -/
def isoMatchAt : List Char → Option (Nat × Nat × Nat)
  | a :: b :: c :: d :: s1 :: e :: f :: s2 :: g :: h :: _ =>
    if isDigitCh a && isDigitCh b && isDigitCh c && isDigitCh d && isoSep s1
        && isDigitCh e && isDigitCh f && isoSep s2 && isDigitCh g && isDigitCh h then
      some (charVal a * 1000 + charVal b * 100 + charVal c * 10 + charVal d,
            charVal e * 10 + charVal f, charVal g * 10 + charVal h)
    else none
  | _ => none

/-- `re.search` of `_ISO_DATE_RE`: leftmost match wins. -/
def isoSearch : List Char → Option (Nat × Nat × Nat)
  | [] => none
  | s :: rest =>
    match isoMatchAt (s :: rest) with
    | some r => some r
    | none => isoSearch rest

/-! ## `_NATURAL_DATE_RE`: `(Month)\s+(\d{1,2}),?\s+(\d{4})`, IGNORECASE -/

/-- ASCII lowering (Python `str.lower` on the module's ASCII month names). -/
def lowerCh (c : Char) : Char := c.toLower

/-- Python `\s` on ASCII input: space, tab, newline, carriage return,
vertical tab, form feed. -/
def isSpaceCh (c : Char) : Bool :=
  c = ' ' || c = '\t' || c = '\n' || c = '\r' || c = Char.ofNat 11 || c = Char.ofNat 12

/-- Length of the leading whitespace run (`\s*` is deterministic here: taking
fewer characters leaves a space in front of the next atom, which is never a
space, so the regex engine's backtracking always settles on the full run). -/
def spaceRun (s : List Char) : Nat := (s.takeWhile isSpaceCh).length

/-- Consume a literal case-insensitively, returning the rest of the input. -/
def matchCaseless : List Char → List Char → Option (List Char)
  | [], s => some s
  | _ :: _, [] => none
  | l :: ls, c :: cs => if lowerCh c = l then matchCaseless ls cs else none

/-- `_MONTH_MAP`, in the alternation order of `_NATURAL_DATE_RE`. -/
def monthTable : List (List Char × Nat) :=
  [("january".toList, 1), ("february".toList, 2), ("march".toList, 3),
   ("april".toList, 4), ("may".toList, 5), ("june".toList, 6),
   ("july".toList, 7), ("august".toList, 8), ("september".toList, 9),
   ("october".toList, 10), ("november".toList, 11), ("december".toList, 12)]

/-- First month name (in alternation order) matching at the head of the
string; no two month names can match at the same position. -/
def monthAtAux : List (List Char × Nat) → List Char → Option (Nat × List Char)
  | [], _ => none
  | (lit, m) :: rest, s =>
    match matchCaseless lit s with
    | some s' => some (m, s')
    | none => monthAtAux rest s

/-- The `,?\s+(\d{4})` tail of `_NATURAL_DATE_RE` after the day numerals.
`,?` is deterministic: if a comma is present but the tail fails after taking
it, the retry without it puts `\s+` in front of the comma and fails too. -/
def yearAfterDay (s : List Char) : Option Nat :=
  let s1 := match s with
    | ',' :: rest => rest
    | _ => s
  let w := spaceRun s1
  if w = 0 then none
  else
    match s1.drop w with
    | a :: b :: c :: d :: _ =>
      if isDigitCh a && isDigitCh b && isDigitCh c && isDigitCh d then
        some (charVal a * 1000 + charVal b * 100 + charVal c * 10 + charVal d)
      else none
    | _ => none

/-- Match `_NATURAL_DATE_RE` anchored at the head of the string, as
(year, month, day).  `\d{1,2}` is greedy: the two-digit day is tried first
and the engine backtracks to one digit if the tail fails. -/
def naturalMatchAt (s : List Char) : Option (Nat × Nat × Nat) :=
  match monthAtAux monthTable s with
  | none => none
  | some (mo, s1) =>
    let w := spaceRun s1
    if w = 0 then none
    else
      match s1.drop w with
      | a :: b :: rest =>
        if isDigitCh a && isDigitCh b then
          match yearAfterDay rest with
          | some y => some (y, mo, charVal a * 10 + charVal b)
          | none =>
            match yearAfterDay (b :: rest) with
            | some y => some (y, mo, charVal a)
            | none => none
        else if isDigitCh a then
          match yearAfterDay (b :: rest) with
          | some y => some (y, mo, charVal a)
          | none => none
        else none
      | [a] =>
        if isDigitCh a then (yearAfterDay []).map (fun y => (y, mo, charVal a)) else none
      | [] => none

/-- `re.search` of `_NATURAL_DATE_RE`: leftmost match wins. -/
def naturalSearch : List Char → Option (Nat × Nat × Nat)
  | [] => none
  | s :: rest =>
    match naturalMatchAt (s :: rest) with
    | some r => some r
    | none => naturalSearch rest

/-- `_parse_date_from_string`: try the ISO grammar, and where its match is
not a valid calendar date (or there is none) fall through to the
natural-language grammar; an invalid natural date yields `None` as well. -/
def _parse_date_from_string (s : List Char) : Option PyDate :=
  let naturalCase :=
    match naturalSearch s with
    | some (y, mo, d) => pyDate y mo d
    | none => none
  match isoSearch s with
  | some (y, mo, d) =>
    match pyDate y mo d with
    | some dt => some dt
    | none => naturalCase
  | none => naturalCase

/-! ## `_HEADER_RE`: `={3,}\s*\S.*?\s*={3,}` (MULTILINE flag is inert:
the pattern uses no `^` or `$`).  `.` does not match a newline; the two
`\s*` may. -/

/-- Length of the leading `=` run. -/
def eqRun (s : List Char) : Nat := (s.takeWhile (· = '=')).length

/-- How many characters `.*?` may cover from here: the rest of the line. -/
def dotRun (s : List Char) : Nat := (s.takeWhile (· ≠ '\n')).length

/-- `n, n-1, ..., lo`: the order a greedy counted repetition is tried in. -/
def descRange (n lo : Nat) : List Nat := (List.range (n + 1 - lo)).map (fun i => n - i)

/-- First alternative (in priority order) on which `f` succeeds. -/
def firstSome {α β : Type} : List α → (α → Option β) → Option β
  | [], _ => none
  | x :: rest, f =>
    match f x with
    | some r => some r
    | none => firstSome rest f

/-- Match the `\s*\S.*?\s*={3,}` tail of `_HEADER_RE` at the head of the
string, returning the matched length.  The leading `\s*` is deterministic
(a shorter run leaves a space where `\S` must match); `.*?` is lazy, so
candidate lengths are tried ascending; the second `\s*` is deterministic (a
shorter run leaves a space where `=` must match); the final `={3,}` is
greedy with nothing after it, so it takes the whole run. -/
def headerTailAt (s : List Char) : Option Nat :=
  let w1 := spaceRun s
  match s.drop w1 with
  | [] => none
  | _ :: r3 =>
    firstSome (List.range (dotRun r3 + 1)) fun m =>
      let r4 := r3.drop m
      let w2 := spaceRun r4
      let e2 := eqRun (r4.drop w2)
      if 3 ≤ e2 then some (w1 + 1 + m + w2 + e2) else none

/-- Match `_HEADER_RE` anchored at the head of the string, returning the
matched length.  The leading `={3,}` is greedy: the full `=` run is tried
first, backtracking down to three (`=` is itself a `\S`, so shorter takes
can succeed where the full run fails). -/
def matchHeaderAt (s : List Char) : Option Nat :=
  let e1 := eqRun s
  if e1 < 3 then none
  else firstSome (descRange e1 3) fun k1 => (headerTailAt (s.drop k1)).map (k1 + ·)

/-- Leftmost `_HEADER_RE` match: start index and length. -/
def findHeaderFrom : List Char → Option (Nat × Nat)
  | [] => none
  | s :: rest =>
    match matchHeaderAt (s :: rest) with
    | some len => some (0, len)
    | none => (findHeaderFrom rest).map (fun p => (p.1 + 1, p.2))

/-- `re.finditer` discipline of `_HEADER_RE`: pairs (text before the match,
matched text), and the remainder after the last match.  Fuel is the input
length plus one; every match is at least seven characters long, so the fuel
never runs out. -/
def headerScanAux : Nat → List Char → List (List Char × List Char) × List Char
  | 0, s => ([], s)
  | fuel + 1, s =>
    match findHeaderFrom s with
    | none => ([], s)
    | some (i, len) =>
      let (ps, rem) := headerScanAux fuel (s.drop (i + len))
      ((s.take i, (s.drop i).take len) :: ps, rem)

/-- One scan serving both `re.split` and `re.findall` on `_HEADER_RE`. -/
def headerScan (s : List Char) : List (List Char × List Char) × List Char :=
  headerScanAux (s.length + 1) s

/-- `_HEADER_RE.findall(text)` (the pattern has no groups, so the matches
themselves are returned). -/
def headerFindall (s : List Char) : List (List Char) := (headerScan s).1.map (·.2)

/-- `_HEADER_RE.split(text)`: the pieces between matches, with the leading
piece first and the trailing piece last. -/
def headerSplit (s : List Char) : List (List Char) :=
  (headerScan s).1.map (·.1) ++ [(headerScan s).2]

/-- `_HEADER_RE.search(content) is not None`. -/
def headerSearchB (s : List Char) : Bool := (findHeaderFrom s).isSome

/-! ## Text decoding (`_decode`) -/

/-- A UTF-8 continuation byte. -/
def isContByte (b : Nat) : Bool := 128 ≤ b && b < 192

/-- Strict UTF-8 decoding (Python `bytes.decode("utf-8")`): rejects stray
continuation bytes, truncated sequences, overlong encodings, surrogate code
points and values past U+10FFFF. -/
def utf8Dec : List Nat → Option (List Char)
  | [] => some []
  | b :: rest =>
    if b < 128 then (utf8Dec rest).map (fun cs => Char.ofNat b :: cs)
    else if b < 192 then none
    else if b < 224 then
      match rest with
      | b2 :: r =>
        if isContByte b2 then
          let cp := (b - 192) * 64 + (b2 - 128)
          if cp < 128 then none else (utf8Dec r).map (fun cs => Char.ofNat cp :: cs)
        else none
      | [] => none
    else if b < 240 then
      match rest with
      | b2 :: b3 :: r =>
        if isContByte b2 && isContByte b3 then
          let cp := (b - 224) * 4096 + (b2 - 128) * 64 + (b3 - 128)
          if cp < 2048 || (55296 ≤ cp && cp < 57344) then none
          else (utf8Dec r).map (fun cs => Char.ofNat cp :: cs)
        else none
      | _ => none
    else if b < 248 then
      match rest with
      | b2 :: b3 :: b4 :: r =>
        if isContByte b2 && isContByte b3 && isContByte b4 then
          let cp := (b - 240) * 262144 + (b2 - 128) * 4096 + (b3 - 128) * 64 + (b4 - 128)
          if cp < 65536 || 1114112 ≤ cp then none
          else (utf8Dec r).map (fun cs => Char.ofNat cp :: cs)
        else none
      | _ => none
    else none

/-- `_decode`: utf-8, then utf-8-sig (utf-8 with the BOM stripped — it can
only succeed where plain utf-8 does, since a BOM is itself valid UTF-8, but
the chain is kept as written), then latin-1, which maps every byte to its
code point and never fails, so the final `errors="replace"` decode in the
source is unreachable. -/
def _decode (raw : List Nat) : List Char :=
  match utf8Dec raw with
  | some cs => cs
  | none =>
    match (if raw.take 3 = [239, 187, 191] then utf8Dec (raw.drop 3) else utf8Dec raw) with
    | some cs => cs
    | none => raw.map Char.ofNat

/-- Python `str.strip()` on ASCII whitespace. -/
def pyStrip (s : List Char) : List Char :=
  ((s.dropWhile isSpaceCh).reverse.dropWhile isSpaceCh).reverse

/-! ## Parsed entries and the per-shape parsers -/

/-- A Parsed Entry: a resolved calendar date and the trimmed content. -/
structure ParsedEntry where
  date : PyDate
  content : List Char
deriving DecidableEq

/-- `detect_format(filename, content)`: archive extension first, then
content delimiter, then filename date, else undated. -/
def detect_format (filename content : List Char) : String :=
  let nameLower := filename.map lowerCh
  if ".zip".toList.isSuffixOf nameLower then "zip_750words"
  else if headerSearchB content then "single_750words"
  else if (_parse_date_from_string filename).isSome then "dated_file"
  else "undated_file"

/-- The member loop of `parse_zip_750words`: directory markers and
`__MACOSX` artifacts are skipped silently; an undateable member name warns
and skips; a dated member becomes one entry. -/
def zipMemberSkipped (name : List Char) : Bool :=
  name.getLast? == some '/' || "__MACOSX".toList.isPrefixOf name

/-- The body of `parse_zip_750words`'s `for name in zf.namelist()` loop. -/
def zipLoop : List (List Char × List Nat) → List ParsedEntry × List (List Char)
  | [] => ([], [])
  | (name, raw) :: rest =>
    if zipMemberSkipped name then zipLoop rest
    else
      match _parse_date_from_string name with
      | none =>
        let (es, ws) := zipLoop rest
        (es, ("Could not parse date from filename: ".toList ++ name ++ " — skipped.".toList) :: ws)
      | some d =>
        let (es, ws) := zipLoop rest
        (⟨d, pyStrip (_decode raw)⟩ :: es, ws)

/-- `parse_zip_750words(file_bytes)`, over an abstract archive reader
`zipRead` standing for `zipfile.ZipFile` + `namelist` + `read`: raw bytes
map either to a `BadZipFile` message or to the member list. -/
def parse_zip_750words (zipRead : List Nat → Except (List Char) (List (List Char × List Nat)))
    (file_bytes : List Nat) : List ParsedEntry × List (List Char) :=
  match zipRead file_bytes with
  | Except.error e => ([], ["Invalid zip file: ".toList ++ e])
  | Except.ok members => zipLoop members

/-- The `for header, content in zip(headers, parts[1:])` loop of
`parse_single_750words`. -/
def entriesLoop : List (List Char × List Char) → List ParsedEntry × List (List Char)
  | [] => ([], [])
  | (header, content) :: rest =>
    let (es, ws) := entriesLoop rest
    match _parse_date_from_string header with
    | none =>
      (es, ("Could not parse date from header '".toList ++ pyStrip header
              ++ "' — skipped.".toList) :: ws)
    | some d => (⟨d, pyStrip content⟩ :: es, ws)

/-- `parse_single_750words(text)`: split on `_HEADER_RE`; no headers means
zero entries and one warning; otherwise pair each header with the segment
after it (`parts[0]`, the text before the first header, is dropped). -/
def parse_single_750words (text : List Char) : List ParsedEntry × List (List Char) :=
  let parts := headerSplit text
  let headers := headerFindall text
  if headers.isEmpty then
    ([], ["No date headers found — use 'dated file' import instead.".toList])
  else
    entriesLoop (headers.zip (parts.drop 1))

/-- `parse_dated_file(filename, file_bytes)`. -/
def parse_dated_file (filename : List Char) (file_bytes : List Nat) :
    List ParsedEntry × List (List Char) :=
  match _parse_date_from_string filename with
  | none => ([], ["Could not parse date from filename: ".toList ++ filename])
  | some d => ([⟨d, pyStrip (_decode file_bytes)⟩], [])

/-- Zero-padded fixed-width decimal renderings (`%02d`, `%04d`, `%06d` on
values within the width). -/
def pad2 (n : Nat) : List Char := [digitChar (n / 10 % 10), digitChar (n % 10)]

/-- Four-digit rendering. -/
def pad4 (n : Nat) : List Char :=
  [digitChar (n / 1000 % 10), digitChar (n / 100 % 10), digitChar (n / 10 % 10),
   digitChar (n % 10)]

/-- Six-digit rendering. -/
def pad6 (n : Nat) : List Char :=
  [digitChar (n / 100000 % 10), digitChar (n / 10000 % 10), digitChar (n / 1000 % 10),
   digitChar (n / 100 % 10), digitChar (n / 10 % 10), digitChar (n % 10)]

/-- `date.isoformat()`. -/
def isoDate (d : PyDate) : List Char :=
  pad4 d.year ++ '-' :: pad2 d.month ++ '-' :: pad2 d.day

/-- `parse_undated_file(file_bytes)`; `date.today()` is the ambient
argument `today`. -/
def parse_undated_file (today : PyDate) (file_bytes : List Nat) :
    List ParsedEntry × List (List Char) :=
  ([⟨today, pyStrip (_decode file_bytes)⟩],
   ["No date found in filename — imported as today (".toList ++ isoDate today
      ++ "). Edit the entry date if needed.".toList])

/-- `parse_upload(filename, file_bytes)`: decode the bytes as text only for
non-zip filenames, classify, dispatch. -/
def parse_upload (zipRead : List Nat → Except (List Char) (List (List Char × List Nat)))
    (today : PyDate) (filename : List Char) (file_bytes : List Nat) :
    List ParsedEntry × List (List Char) :=
  let content_str :=
    if ".zip".toList.isSuffixOf (filename.map lowerCh) then [] else _decode file_bytes
  let fmt := detect_format filename content_str
  if fmt = "zip_750words" then parse_zip_750words zipRead file_bytes
  else if fmt = "single_750words" then parse_single_750words content_str
  else if fmt = "dated_file" then parse_dated_file filename file_bytes
  else parse_undated_file today file_bytes

/-! ## `datetime.datetime` -/

/-- A naive `datetime.datetime`: calendar date plus time of day. -/
structure PyDateTime where
  year : Nat
  month : Nat
  day : Nat
  hour : Nat
  minute : Nat
  second : Nat
  microsecond : Nat
deriving DecidableEq

/-- `datetime.datetime` constructor validation. -/
def dtValid (t : PyDateTime) : Bool :=
  dateValid t.year t.month t.day && t.hour < 24 && t.minute < 60 && t.second < 60
    && t.microsecond < 1000000

/-- `datetime.isoformat()`: `YYYY-MM-DDTHH:MM:SS`, with `.ffffff` appended
exactly when the microsecond field is nonzero. -/
def isoformat (t : PyDateTime) : List Char :=
  isoDate ⟨t.year, t.month, t.day⟩ ++ 'T' :: pad2 t.hour ++ ':' :: pad2 t.minute
    ++ ':' :: pad2 t.second
    ++ (if t.microsecond = 0 then [] else '.' :: pad6 t.microsecond)

/-- Read one ASCII digit. -/
def readDigit : List Char → Option (Nat × List Char)
  | d :: rest => if isDigitCh d then some (charVal d, rest) else none
  | [] => none

/-- Read exactly two digits. -/
def read2L (s : List Char) : Option (Nat × List Char) :=
  match readDigit s with
  | none => none
  | some (a, s1) =>
    match readDigit s1 with
    | none => none
    | some (b, s2) => some (a * 10 + b, s2)

/-- Read exactly four digits. -/
def read4L (s : List Char) : Option (Nat × List Char) :=
  match read2L s with
  | none => none
  | some (a, s1) =>
    match read2L s1 with
    | none => none
    | some (b, s2) => some (a * 100 + b, s2)

/-- Read exactly six digits. -/
def read6L (s : List Char) : Option (Nat × List Char) :=
  match read2L s with
  | none => none
  | some (a, s1) =>
    match read4L s1 with
    | none => none
    | some (b, s2) => some (a * 10000 + b, s2)

/-- Expect one specific character. -/
def expectCh (c : Char) : List Char → Option (List Char)
  | d :: rest => if d = c then some rest else none
  | [] => none

/-- `datetime.fromisoformat`, on the grammar `datetime.isoformat` emits —
the only strings this program ever passes it; every other input is `none`,
as Python's `ValueError` is turned into the invalid result by the caller's
`try/except`.  Field validation is the `datetime` constructor's. -/
def fromisoformat (s : List Char) : Option PyDateTime :=
  match read4L s with
  | none => none
  | some (y, s1) =>
    match expectCh '-' s1 with
    | none => none
    | some s2 =>
      match read2L s2 with
      | none => none
      | some (mo, s3) =>
        match expectCh '-' s3 with
        | none => none
        | some s4 =>
          match read2L s4 with
          | none => none
          | some (dy, s5) =>
            match expectCh 'T' s5 with
            | none => none
            | some s6 =>
              match read2L s6 with
              | none => none
              | some (h, s7) =>
                match expectCh ':' s7 with
                | none => none
                | some s8 =>
                  match read2L s8 with
                  | none => none
                  | some (mi, s9) =>
                    match expectCh ':' s9 with
                    | none => none
                    | some s10 =>
                      match read2L s10 with
                      | none => none
                      | some (se, s11) =>
                        match s11 with
                        | [] =>
                          let t : PyDateTime := ⟨y, mo, dy, h, mi, se, 0⟩
                          if dtValid t then some t else none
                        | '.' :: s12 =>
                          match read6L s12 with
                          | some (us, []) =>
                            let t : PyDateTime := ⟨y, mo, dy, h, mi, se, us⟩
                            if dtValid t then some t else none
                          | _ => none
                        | _ => none

/-- The day after a calendar date (Gregorian successor). -/
def nextDay (d : PyDate) : PyDate :=
  if d.day < daysInMonth d.year d.month then ⟨d.year, d.month, d.day + 1⟩
  else if d.month < 12 then ⟨d.year, d.month + 1, 1⟩
  else ⟨d.year + 1, 1, 1⟩

/-- Shift a calendar date forward by `n` days. -/
def addDays (n : Nat) (d : PyDate) : PyDate := nextDay^[n] d

/-- `_SESSION_DAYS` from the source. -/
def _SESSION_DAYS : Nat := 30

/-- `datetime.utcnow() + timedelta(days=_SESSION_DAYS)` applied to `now`:
a naive datetime plus a whole number of days keeps the time of day and
advances the calendar date.  (Past `datetime.max` Python would raise; the
theorems about issued tokens carry the corresponding validity hypothesis.) -/
def tokenExpiry (now : PyDateTime) : PyDateTime :=
  let d := addDays _SESSION_DAYS ⟨now.year, now.month, now.day⟩
  ⟨d.year, d.month, d.day, now.hour, now.minute, now.second, now.microsecond⟩

/-- Python `datetime < datetime`: field-lexicographic. -/
def dtLt (a b : PyDateTime) : Prop :=
  a.year < b.year ∨ (a.year = b.year ∧ (a.month < b.month ∨ (a.month = b.month
    ∧ (a.day < b.day ∨ (a.day = b.day ∧ (a.hour < b.hour ∨ (a.hour = b.hour
    ∧ (a.minute < b.minute ∨ (a.minute = b.minute ∧ (a.second < b.second
    ∨ (a.second = b.second ∧ a.microsecond < b.microsecond)))))))))))

instance (a b : PyDateTime) : Decidable (dtLt a b) := by
  unfold dtLt; infer_instance

/-- `date < date`: field-lexicographic. -/
def dateLtP (a b : PyDate) : Prop :=
  a.year < b.year ∨ (a.year = b.year ∧ (a.month < b.month
    ∨ (a.month = b.month ∧ a.day < b.day)))

instance (a b : PyDate) : Decidable (dateLtP a b) := by
  unfold dateLtP; infer_instance

/-! ## base64 (urlsafe), hex digests, and the JSON payload -/

/-- The urlsafe base64 alphabet, index to character. -/
def b64Chars : List Char :=
  "ABCDEFGHIJKLMNOPQRSTUVWXYZabcdefghijklmnopqrstuvwxyz0123456789-_".toList

/-- Sextet to character. -/
def b64Char (n : Nat) : Char := b64Chars.getD n 'A'

/-- Character to sextet: both the standard and the urlsafe alphabets are
accepted, as `urlsafe_b64decode` only translates `-_` to `+/` and leaves
`+/` valid. -/
def b64Val (c : Char) : Option Nat :=
  if 'A' ≤ c && c ≤ 'Z' then some (c.toNat - 65)
  else if 'a' ≤ c && c ≤ 'z' then some (c.toNat - 97 + 26)
  else if '0' ≤ c && c ≤ '9' then some (c.toNat - 48 + 52)
  else if c = '-' || c = '+' then some 62
  else if c = '_' || c = '/' then some 63
  else none

/-- `base64.urlsafe_b64encode` on bytes, producing characters with `=`
padding. -/
def b64EncodeBytes : List Nat → List Char
  | a :: b :: c :: rest =>
    b64Char (a / 4) :: b64Char (a % 4 * 16 + b / 16) :: b64Char (b % 16 * 4 + c / 64)
      :: b64Char (c % 64) :: b64EncodeBytes rest
  | [a, b] => [b64Char (a / 4), b64Char (a % 4 * 16 + b / 16), b64Char (b % 16 * 4), '=']
  | [a] => [b64Char (a / 4), b64Char (a % 4 * 16), '=', '=']
  | [] => []

/-- Reassemble bytes from a sextet stream: full quads give three bytes, a
final pair one byte, a final triple two bytes (leftover bits are dropped
without checking, as CPython does). -/
def b64DecodeQuads : List Nat → List Nat
  | a :: b :: c :: d :: rest =>
    (a * 4 + b / 16) :: (b % 16 * 16 + c / 4) :: (c % 4 * 64 + d) :: b64DecodeQuads rest
  | [a, b] => [a * 4 + b / 16]
  | [a, b, c] => [a * 4 + b / 16, b % 16 * 16 + c / 4]
  | _ => []

/-- `base64.urlsafe_b64decode` on a string, with CPython's non-strict
discipline: characters outside the alphabet are discarded, data stops at
the first `=`, and the only error is a data length of 1 mod 4 (or a
non-multiple-of-4 length with no padding present at all). -/
def pyB64Decode (s : List Char) : Option (List Nat) :=
  let cleaned := s.filter (fun c => (b64Val c).isSome || c = '=')
  let data := cleaned.takeWhile (· ≠ '=')
  let hasPad := data.length < cleaned.length
  if data.length % 4 = 1 then none
  else if data.length % 4 ≠ 0 && !hasPad then none
  else some (b64DecodeQuads (data.filterMap b64Val))

/-- The sextet stream behind `b64EncodeBytes`: the values of its data
characters, without the padding. -/
def b64Sextets : List Nat → List Nat
  | a :: b :: c :: rest =>
    a / 4 :: (a % 4 * 16 + b / 16) :: (b % 16 * 4 + c / 64) :: c % 64 :: b64Sextets rest
  | [a, b] => [a / 4, a % 4 * 16 + b / 16, b % 16 * 4]
  | [a] => [a / 4, a % 4 * 16]
  | [] => []

/-- Lowercase hex digit characters. -/
def hexChar (n : Nat) : Char := "0123456789abcdef".toList.getD n '0'

/-- `hexdigest()`: two lowercase hex digits per byte. -/
def hexdigest : List Nat → List Char
  | [] => []
  | b :: rest => hexChar (b / 16) :: hexChar (b % 16) :: hexdigest rest

/-- UTF-8 bytes of an ASCII string (codepoints; all payload characters this
program serializes are ASCII). -/
def strBytes (s : List Char) : List Nat := s.map Char.toNat

/-- `json.dumps({"uid": user_id, "exp": exp}, separators=(",", ":"))`. -/
def jsonPayloadChars (uid : Nat) (exp : List Char) : List Char :=
  "\x7b\"uid\":".toList ++ natDec uid ++ ",\"exp\":\"".toList ++ exp ++ "\"\x7d".toList

/-- Consume an exact literal. -/
def consumeLit : List Char → List Char → Option (List Char)
  | [], s => some s
  | _ :: _, [] => none
  | l :: ls, c :: cs => if c = l then consumeLit ls cs else none

/-- `json.loads` followed by the `data["uid"]` / `data["exp"]` lookups, on
the schema of this program's own payload (`{"uid":<int>,"exp":"<string>"}`
with an escape-free string).  Any other JSON document yields `none`: in the
source such documents end in a `KeyError`/`TypeError`/`JSONDecodeError`
inside the same `try/except` and so give the identical invalid result. -/
def jsonLoadsPayload (bs : List Nat) : Option (Nat × List Char) :=
  let cs := bs.map Char.ofNat
  match consumeLit "\x7b\"uid\":".toList cs with
  | none => none
  | some r1 =>
    let ds := r1.takeWhile isDigitCh
    if ds.isEmpty then none
    else
      match consumeLit ",\"exp\":\"".toList (r1.drop ds.length) with
      | none => none
      | some r2 =>
        let es := r2.takeWhile (fun c => c ≠ '"')
        match r2.drop es.length with
        | '"' :: '\x7d' :: [] => some (decNatAux ds, es)
        | _ => none

/-- `token.rsplit(".", 1)` when it unpacks into two parts: split at the
last dot; `none` where the dot is absent and the unpacking raises
ValueError. -/
def rsplitDot : List Char → Option (List Char × List Char)
  | [] => none
  | c :: cs =>
    match rsplitDot cs with
    | some (e, s) => some (c :: e, s)
    | none => if c = '.' then some ([], cs) else none

/-! ## The session token -/

/-- The serialized payload of a token issued for `user_id` at `now`. -/
def tokenPayload (user_id : Nat) (now : PyDateTime) : List Nat :=
  strBytes (jsonPayloadChars user_id (isoformat (tokenExpiry now)))

/-- `_make_token(user_id)` at issuance instant `now`, over the abstract MAC
`mac` (HMAC-SHA256) and the process-wide secret: base64url payload, a dot,
and the hex tag. -/
def _make_token (mac : List Nat → List Nat → List Nat) (secret : List Nat)
    (user_id : Nat) (now : PyDateTime) : List Char :=
  let payload := tokenPayload user_id now
  b64EncodeBytes payload ++ '.' :: hexdigest (mac secret payload)

/-- The `try`-block body of `_decode_token`, with each stdlib exception
surfaced as an `Except.error`: unpacking `rsplit(".", 1)` (ValueError when
there is no dot), base64 decoding (binascii.Error), JSON loading/key
lookups, and `fromisoformat` (ValueError).  The tag comparison
(`hmac.compare_digest` on equal strings; a non-ASCII supplied tag raises
TypeError in Python, which the wrapper also turns into `None`, and which
here is simply an unequal comparison) returns `None` on mismatch before the
payload is ever parsed. -/
def _decode_token_body (mac : List Nat → List Nat → List Nat) (secret : List Nat)
    (token : List Char) (now : PyDateTime) : Except String (Option Nat) :=
  match rsplitDot token with
  | none => Except.error "ValueError: not enough values to unpack"
  | some (encoded, sig) =>
    match pyB64Decode (encoded ++ ['=', '=']) with
    | none => Except.error "binascii.Error: invalid base64"
    | some payload =>
      let expected := hexdigest (mac secret payload)
      if sig ≠ expected then Except.ok none
      else
        match jsonLoadsPayload payload with
        | none => Except.error "json decoding or key lookup failed"
        | some (uid, expStr) =>
          match fromisoformat expStr with
          | none => Except.error "ValueError: invalid isoformat string"
          | some exp =>
            if dtLt exp now then Except.ok none else Except.ok (some uid)

/-- `_decode_token(token)` at verification instant `now`: the body wrapped
in the catch-all `except Exception: return None`. -/
def _decode_token (mac : List Nat → List Nat → List Nat) (secret : List Nat)
    (token : List Char) (now : PyDateTime) : Option Nat :=
  match _decode_token_body mac secret token now with
  | Except.ok r => r
  | Except.error _ => none

/-! ## Concrete fixtures used to exercise the theorems -/

/-- A stand-in MAC with SHA-256's digest size: 32 constant bytes. -/
def mac0 : List Nat → List Nat → List Nat := fun _ _ => List.replicate 32 7

/-- A concrete server secret. -/
def secret0 : List Nat := []

/-- A concrete issuance instant. -/
def now0 : PyDateTime := ⟨2024, 1, 15, 12, 0, 0, 500000⟩

/-- The token issued for user 1 at `now0` under `mac0`/`secret0`. -/
def tok0 : List Char := _make_token mac0 secret0 1 now0

/-- The expiry instant embedded in `tok0`: thirty days past `now0`. -/
def vt0 : PyDateTime := tokenExpiry now0

/-- A verification instant long after `tok0` expired. -/
def late0 : PyDateTime := ⟨2030, 1, 1, 0, 0, 0, 0⟩

/-- An archive reader fixture: one dated member plus one `__MACOSX`
artifact. -/
def zrOk : List Nat → Except (List Char) (List (List Char × List Nat)) :=
  fun _ => Except.ok
    [("2024-01-05.txt".toList, strBytes "hi".toList),
     ("__MACOSX/._ignore".toList, [120])]

/-- An archive reader fixture: the unreadable container. -/
def zrBad : List Nat → Except (List Char) (List (List Char × List Nat)) :=
  fun _ => Except.error "File is not a zip file".toList

/-- An archive reader fixture: only directory markers and metadata. -/
def zrMeta : List Nat → Except (List Char) (List (List Char × List Nat)) :=
  fun _ => Except.ok [("__MACOSX/a".toList, []), ("folder/".toList, [])]

/-- A three-section multi-entry fixture whose middle header is undateable. -/
def text3 : List Char :=
  "=== 2024-01-05 ===\nalpha\n=== nonsense ===\nbeta\n=== 2024-01-07 ===\ngamma".toList

/-- The tag of `tok0` minus its first character (the digest of `mac0` is
thirty-two `0x07` bytes, so the tag is `"07"` thirty-two times). -/
def tail0 : List Char := "707070707070707070707070707070707070707070707070707070707070707".toList

/-! # Helper lemmas: digits and decimal numerals -/

/-- `digitChar` always yields a digit character (the out-of-range default is
itself a digit). -/
theorem isDigitCh_digitChar (d : Nat) : isDigitCh (digitChar d) = true := by
  rcases Nat.lt_or_ge d 10 with h | h
  · interval_cases d <;> decide
  · unfold digitChar
    rw [List.getD_eq_getElem?_getD, List.getElem?_eq_none (by simpa using h)]
    decide

/-- On an in-range digit, `charVal` inverts `digitChar`. -/
theorem charVal_digitChar {d : Nat} (h : d < 10) : charVal (digitChar d) = d := by
  interval_cases d <;> decide

/-- A digit character is ASCII. -/
theorem isDigitCh_toNat_le {c : Char} (h : isDigitCh c = true) :
    48 ≤ c.toNat ∧ c.toNat ≤ 57 := by
  unfold isDigitCh at h
  simp only [Bool.and_eq_true, decide_eq_true_eq] at h
  exact h

/-- Characters with distinct code points are distinct. -/
theorem charNe_of_toNat_ne {c d : Char} (h : c.toNat ≠ d.toNat) : c ≠ d :=
  fun he => h (he ▸ rfl)

/-- Every character of `natDecGo` is an in-range digit character. -/
theorem natDecGo_digit :
    ∀ fuel n : Nat, ∀ c ∈ natDecGo fuel n, ∃ k, k < 10 ∧ c = digitChar k := by
  intro fuel
  induction fuel with
  | zero => intro n c hc; simp [natDecGo] at hc
  | succ fuel ih =>
    intro n c hc
    by_cases hn : n = 0
    · simp [natDecGo, hn] at hc
    · rw [natDecGo, if_neg hn] at hc
      rcases List.mem_append.mp hc with hc | hc
      · exact ih _ _ hc
      · exact ⟨n % 10, Nat.mod_lt _ (by norm_num), List.mem_singleton.mp hc⟩

/-- Horner evaluation of the digit expansion. -/
theorem natDecGo_foldl :
    ∀ fuel n a : Nat, n ≤ fuel →
      (natDecGo fuel n).foldl (fun a c => a * 10 + charVal c) a
        = a * 10 ^ (natDecGo fuel n).length + n := by
  intro fuel
  induction fuel with
  | zero =>
    intro n a h
    interval_cases n
    simp [natDecGo]
  | succ fuel ih =>
    intro n a h
    by_cases hn : n = 0
    · subst hn; simp [natDecGo]
    · rw [natDecGo, if_neg hn, List.foldl_append, List.length_append]
      have hdiv : n / 10 ≤ fuel := by
        have : n / 10 < n := Nat.div_lt_self (Nat.pos_of_ne_zero hn) (by norm_num)
        omega
      rw [ih (n / 10) a hdiv]
      simp only [List.foldl_cons, List.foldl_nil, List.length_cons, List.length_nil,
        Nat.zero_add]
      rw [charVal_digitChar (Nat.mod_lt _ (by norm_num))]
      have hmod : n / 10 * 10 + n % 10 = n := by omega
      calc (a * 10 ^ (natDecGo fuel (n / 10)).length + n / 10) * 10 + n % 10
          = a * (10 ^ (natDecGo fuel (n / 10)).length * 10) + (n / 10 * 10 + n % 10) := by
            ring
        _ = a * 10 ^ ((natDecGo fuel (n / 10)).length + 1) + n := by rw [hmod, pow_succ]

/-- Reading back the decimal rendering. -/
theorem decNatAux_natDec (n : Nat) : decNatAux (natDec n) = n := by
  unfold natDec decNatAux
  by_cases hn : n = 0
  · subst hn; decide
  · rw [if_neg hn]
    simpa using natDecGo_foldl n n 0 (Nat.le_refl n)

/-- Every character of `natDec` is an in-range digit character. -/
theorem natDec_digit (n : Nat) : ∀ c ∈ natDec n, ∃ k, k < 10 ∧ c = digitChar k := by
  intro c hc
  unfold natDec at hc
  by_cases hn : n = 0
  · rw [if_pos hn] at hc
    exact ⟨0, by norm_num, List.mem_singleton.mp hc⟩
  · rw [if_neg hn] at hc
    exact natDecGo_digit n n c hc

/-- `natDec` renders a nonempty all-digit string. -/
theorem natDec_isDigit (n : Nat) : ∀ c ∈ natDec n, isDigitCh c = true := by
  intro c hc
  obtain ⟨k, -, rfl⟩ := natDec_digit n c hc
  exact isDigitCh_digitChar k

/-! # Helper lemmas: fixed-width date and time fields -/

/-- Reading back a digit character. -/
theorem readDigit_digitChar {k : Nat} (h : k < 10) (r : List Char) :
    readDigit (digitChar k :: r) = some (k, r) := by
  simp [readDigit, isDigitCh_digitChar, charVal_digitChar h]

/-- Reading back a two-digit rendering. -/
theorem read2L_pad2 {n : Nat} (h : n < 100) (r : List Char) :
    read2L (pad2 n ++ r) = some (n, r) := by
  have h1 : n / 10 % 10 < 10 := Nat.mod_lt _ (by norm_num)
  have h2 : n % 10 < 10 := Nat.mod_lt _ (by norm_num)
  simp [pad2, read2L, readDigit_digitChar h1, readDigit_digitChar h2]
  omega

/-- Reading back a four-digit rendering. -/
theorem read4L_pad4 {n : Nat} (h : n < 10000) (r : List Char) :
    read4L (pad4 n ++ r) = some (n, r) := by
  have h1 : n / 1000 % 10 < 10 := Nat.mod_lt _ (by norm_num)
  have h2 : n / 100 % 10 < 10 := Nat.mod_lt _ (by norm_num)
  have h3 : n / 10 % 10 < 10 := Nat.mod_lt _ (by norm_num)
  have h4 : n % 10 < 10 := Nat.mod_lt _ (by norm_num)
  simp [pad4, read4L, read2L, readDigit_digitChar h1, readDigit_digitChar h2,
    readDigit_digitChar h3, readDigit_digitChar h4]
  omega

/-- Reading back a six-digit rendering. -/
theorem read6L_pad6 {n : Nat} (h : n < 1000000) (r : List Char) :
    read6L (pad6 n ++ r) = some (n, r) := by
  have h1 : n / 100000 % 10 < 10 := Nat.mod_lt _ (by norm_num)
  have h2 : n / 10000 % 10 < 10 := Nat.mod_lt _ (by norm_num)
  have h3 : n / 1000 % 10 < 10 := Nat.mod_lt _ (by norm_num)
  have h4 : n / 100 % 10 < 10 := Nat.mod_lt _ (by norm_num)
  have h5 : n / 10 % 10 < 10 := Nat.mod_lt _ (by norm_num)
  have h6 : n % 10 < 10 := Nat.mod_lt _ (by norm_num)
  simp [pad6, read6L, read4L, read2L, readDigit_digitChar h1, readDigit_digitChar h2,
    readDigit_digitChar h3, readDigit_digitChar h4, readDigit_digitChar h5,
    readDigit_digitChar h6]
  omega

/-- Reading back a two-digit rendering that ends the string. -/
theorem read2L_pad2_nil {n : Nat} (h : n < 100) : read2L (pad2 n) = some (n, []) := by
  simpa using read2L_pad2 h []

/-- Reading back a six-digit rendering that ends the string. -/
theorem read6L_pad6_nil {n : Nat} (h : n < 1000000) : read6L (pad6 n) = some (n, []) := by
  simpa using read6L_pad6 h []

/-- `expectCh` on the expected character. -/
theorem expectCh_cons (c : Char) (r : List Char) : expectCh c (c :: r) = some r := by
  simp [expectCh]

/-- Month lengths never exceed 31. -/
theorem daysInMonth_le (y m : Nat) : daysInMonth y m ≤ 31 := by
  unfold daysInMonth
  split_ifs <;> omega

/-- `fromisoformat` inverts `isoformat` on constructible datetimes. -/
theorem fromisoformat_isoformat {t : PyDateTime} (h : dtValid t = true) :
    fromisoformat (isoformat t) = some t := by
  obtain ⟨y, mo, dy, hh, mi, se, us⟩ := t
  have hb := h
  unfold dtValid dateValid at hb
  simp only [Bool.and_eq_true, decide_eq_true_eq] at hb
  have hy : y < 10000 := by omega
  have hmo : mo < 100 := by omega
  have hdy : dy < 100 := by
    have := daysInMonth_le y mo
    omega
  have hhh : hh < 100 := by omega
  have hmi : mi < 100 := by omega
  have hse : se < 100 := by omega
  have hus : us < 1000000 := by omega
  by_cases h0 : us = 0
  · subst h0
    simp only [isoformat, isoDate, if_pos rfl, List.append_nil, List.cons_append,
      List.append_assoc, List.nil_append]
    simp [fromisoformat, read4L_pad4 hy, read2L_pad2 hmo, read2L_pad2 hdy,
      read2L_pad2 hhh, read2L_pad2 hmi, read2L_pad2_nil hse, expectCh_cons, h]
  · simp only [isoformat, isoDate, if_neg h0, List.cons_append, List.append_assoc,
      List.nil_append]
    simp [fromisoformat, read4L_pad4 hy, read2L_pad2 hmo, read2L_pad2 hdy,
      read2L_pad2 hhh, read2L_pad2 hmi, read2L_pad2 hse,
      read6L_pad6_nil hus, expectCh_cons, h]

/-! # Helper lemmas: base64 -/

/-- `b64Val` inverts `b64Char` on sextets. -/
theorem b64Val_b64Char : ∀ n < 64, b64Val (b64Char n) = some n := by decide

/-- `b64Char` always lands in the decode alphabet (the out-of-range default
is `'A'`). -/
theorem b64Char_isSome (n : Nat) : (b64Val (b64Char n)).isSome = true := by
  rcases Nat.lt_or_ge n 64 with h | h
  · rw [b64Val_b64Char n h]; rfl
  · unfold b64Char
    rw [List.getD_eq_getElem?_getD, List.getElem?_eq_none]
    · decide
    · have : b64Chars.length = 64 := by decide
      omega

/-- `b64Char` never yields the padding character. -/
theorem b64Char_ne_eq (n : Nat) : b64Char n ≠ '=' := by
  rcases Nat.lt_or_ge n 64 with h | h
  · revert h; revert n; decide
  · unfold b64Char
    rw [List.getD_eq_getElem?_getD, List.getElem?_eq_none]
    · decide
    · have : b64Chars.length = 64 := by decide
      omega

/-- Every character of an encoding survives the decoder's alphabet filter. -/
theorem b64EncodeBytes_mem (p : List Nat) :
    ∀ c ∈ b64EncodeBytes p, ((b64Val c).isSome || c = '=') = true := by
  induction p using b64EncodeBytes.induct with
  | case1 a b c rest ih =>
    intro x hx
    rw [b64EncodeBytes] at hx
    rcases List.mem_cons.mp hx with rfl | hx
    · simp [b64Char_isSome]
    rcases List.mem_cons.mp hx with rfl | hx
    · simp [b64Char_isSome]
    rcases List.mem_cons.mp hx with rfl | hx
    · simp [b64Char_isSome]
    rcases List.mem_cons.mp hx with rfl | hx
    · simp [b64Char_isSome]
    exact ih x hx
  | case2 a b =>
    intro x hx
    rw [b64EncodeBytes] at hx
    rcases List.mem_cons.mp hx with rfl | hx
    · simp [b64Char_isSome]
    rcases List.mem_cons.mp hx with rfl | hx
    · simp [b64Char_isSome]
    rcases List.mem_cons.mp hx with rfl | hx
    · simp [b64Char_isSome]
    · simp_all
  | case3 a =>
    intro x hx
    rw [b64EncodeBytes] at hx
    rcases List.mem_cons.mp hx with rfl | hx
    · simp [b64Char_isSome]
    rcases List.mem_cons.mp hx with rfl | hx
    · simp [b64Char_isSome]
    · simp_all
  | case4 =>
    intro x hx
    rw [b64EncodeBytes] at hx
    simp at hx

/-- The data prefix of an encoding plus the appended extra padding. -/
theorem b64_data_eq (p : List Nat) :
    (b64EncodeBytes p ++ ['=', '=']).takeWhile (fun c => c ≠ '=')
      = (b64Sextets p).map b64Char := by
  induction p using b64EncodeBytes.induct with
  | case1 a b c rest ih =>
    rw [b64EncodeBytes, b64Sextets]
    simp only [List.cons_append, List.takeWhile_cons, List.map_cons]
    simp [b64Char_ne_eq]
    simpa using ih
  | case2 a b =>
    rw [b64EncodeBytes, b64Sextets]
    simp [List.takeWhile_cons, b64Char_ne_eq]
  | case3 a =>
    rw [b64EncodeBytes, b64Sextets]
    simp [List.takeWhile_cons, b64Char_ne_eq]
  | case4 =>
    rw [b64EncodeBytes, b64Sextets]
    simp

/-- Sextet streams never have residue 1 mod 4. -/
theorem b64Sextets_mod (p : List Nat) : (b64Sextets p).length % 4 ≠ 1 := by
  induction p using b64Sextets.induct with
  | case1 a b c rest ih => rw [b64Sextets]; simp only [List.length_cons]; omega
  | case2 a b => rw [b64Sextets]; simp
  | case3 a => rw [b64Sextets]; simp
  | case4 => rw [b64Sextets]; simp

/-- The sextet stream is never longer than the encoding. -/
theorem b64Sextets_length_le (p : List Nat) :
    (b64Sextets p).length ≤ (b64EncodeBytes p).length := by
  induction p using b64Sextets.induct with
  | case1 a b c rest ih =>
    rw [b64Sextets, b64EncodeBytes]
    simp only [List.length_cons]
    omega
  | case2 a b => rw [b64Sextets, b64EncodeBytes]; simp
  | case3 a => rw [b64Sextets, b64EncodeBytes]; simp
  | case4 => rw [b64Sextets, b64EncodeBytes]; simp

/-- Sextets of byte streams are in range. -/
theorem b64Sextets_lt (p : List Nat) (hp : ∀ b ∈ p, b < 256) :
    ∀ s ∈ b64Sextets p, s < 64 := by
  induction p using b64Sextets.induct with
  | case1 a b c rest ih =>
    intro s hs
    have ha : a < 256 := hp a (by simp)
    have hbb : b < 256 := hp b (by simp)
    have hc : c < 256 := hp c (by simp)
    rw [b64Sextets] at hs
    rcases List.mem_cons.mp hs with rfl | hs
    · omega
    rcases List.mem_cons.mp hs with rfl | hs
    · omega
    rcases List.mem_cons.mp hs with rfl | hs
    · omega
    rcases List.mem_cons.mp hs with rfl | hs
    · omega
    exact ih (fun x hx => hp x (by simp [hx])) s hs
  | case2 a b =>
    intro s hs
    have ha : a < 256 := hp a (by simp)
    have hbb : b < 256 := hp b (by simp)
    rw [b64Sextets] at hs
    rcases List.mem_cons.mp hs with rfl | hs
    · omega
    rcases List.mem_cons.mp hs with rfl | hs
    · omega
    rcases List.mem_cons.mp hs with rfl | hs
    · omega
    · simp at hs
  | case3 a =>
    intro s hs
    have ha : a < 256 := hp a (by simp)
    rw [b64Sextets] at hs
    rcases List.mem_cons.mp hs with rfl | hs
    · omega
    rcases List.mem_cons.mp hs with rfl | hs
    · omega
    · simp at hs
  | case4 => intro s hs; rw [b64Sextets] at hs; simp at hs

/-- Recovering a small-value stream through the alphabet. -/
theorem filterMap_b64_of_lt (l : List Nat) (h : ∀ s ∈ l, s < 64) :
    (l.map b64Char).filterMap b64Val = l := by
  induction l with
  | nil => rfl
  | cons s rest ih =>
    simp only [List.map_cons, List.filterMap_cons]
    rw [b64Val_b64Char s (h s (by simp))]
    rw [ih (fun x hx => h x (by simp [hx]))]

/-- Quad reassembly inverts sextet expansion on byte streams. -/
theorem b64DecodeQuads_sextets (p : List Nat) (hp : ∀ b ∈ p, b < 256) :
    b64DecodeQuads (b64Sextets p) = p := by
  induction p using b64Sextets.induct with
  | case1 a b c rest ih =>
    have ha : a < 256 := hp a (by simp)
    have hbb : b < 256 := hp b (by simp)
    have hc : c < 256 := hp c (by simp)
    rw [b64Sextets, b64DecodeQuads]
    rw [ih (fun x hx => hp x (by simp [hx]))]
    have e1 : a / 4 * 4 + (a % 4 * 16 + b / 16) / 16 = a := by omega
    have e2 : (a % 4 * 16 + b / 16) % 16 * 16 + (b % 16 * 4 + c / 64) / 4 = b := by omega
    have e3 : (b % 16 * 4 + c / 64) % 4 * 64 + c % 64 = c := by omega
    rw [e1, e2, e3]
  | case2 a b =>
    have ha : a < 256 := hp a (by simp)
    have hbb : b < 256 := hp b (by simp)
    rw [b64Sextets, b64DecodeQuads]
    have e1 : a / 4 * 4 + (a % 4 * 16 + b / 16) / 16 = a := by omega
    have e2 : (a % 4 * 16 + b / 16) % 16 * 16 + b % 16 * 4 / 4 = b := by omega
    rw [e1, e2]
  | case3 a =>
    have ha : a < 256 := hp a (by simp)
    rw [b64Sextets, b64DecodeQuads]
    have e1 : a / 4 * 4 + a % 4 * 16 / 16 = a := by omega
    rw [e1]
  | case4 => rfl

/-- `urlsafe_b64decode(encoded + "==")` inverts `urlsafe_b64encode` on byte
streams (the source appends the two extra padding characters blindly, and
CPython tolerates surplus padding). -/
theorem b64_roundtrip (p : List Nat) (hp : ∀ b ∈ p, b < 256) :
    pyB64Decode (b64EncodeBytes p ++ ['=', '=']) = some p := by
  simp only [pyB64Decode]
  have hfilter : (b64EncodeBytes p ++ ['=', '=']).filter
      (fun c => (b64Val c).isSome || c = '=') = b64EncodeBytes p ++ ['=', '='] := by
    rw [List.filter_eq_self]
    intro a ha
    rcases List.mem_append.mp ha with ha | ha
    · exact b64EncodeBytes_mem p a ha
    · rcases List.mem_cons.mp ha with rfl | ha
      · decide
      · simp at ha; subst ha; decide
  rw [hfilter, b64_data_eq]
  have hlen : ((b64Sextets p).map b64Char).length = (b64Sextets p).length := by simp
  have hmod := b64Sextets_mod p
  have hlt : ((b64Sextets p).map b64Char).length < (b64EncodeBytes p ++ ['=', '=']).length := by
    have := b64Sextets_length_le p
    simp only [List.length_append, List.length_map]
    simp only [List.length_cons, List.length_nil]
    omega
  rw [if_neg (by omega), if_neg (by
    have hle := b64Sextets_length_le p
    simp
    omega)]
  rw [filterMap_b64_of_lt _ (b64Sextets_lt p hp), b64DecodeQuads_sextets p hp]

/-! # Helper lemmas: json payload, hex digest, token splitting -/

/-- Consuming a literal prefix succeeds and returns the rest. -/
theorem consumeLit_append (lit r : List Char) : consumeLit lit (lit ++ r) = some r := by
  induction lit with
  | nil => rfl
  | cons c cs ih => simp [consumeLit, ih]

/-- `takeWhile` over an all-true prefix stopped by a failing head. -/
theorem takeWhile_prefix {p : Char → Bool} (xs : List Char) (y : Char) (ys : List Char)
    (hall : ∀ x ∈ xs, p x = true) (hy : p y = false) :
    (xs ++ y :: ys).takeWhile p = xs := by
  induction xs with
  | nil => simp [List.takeWhile_cons, hy]
  | cons x xs ih =>
    have hx := hall x (by simp)
    simp only [List.cons_append, List.takeWhile_cons, hx, if_true]
    rw [ih (fun z hz => hall z (by simp [hz]))]

/-- `natDec` renders at least one digit. -/
theorem natDec_ne_nil (n : Nat) : natDec n ≠ [] := by
  unfold natDec
  by_cases hn : n = 0
  · simp [hn]
  · rw [if_neg hn]
    cases n with
    | zero => exact absurd rfl hn
    | succ m =>
      rw [natDecGo, if_neg hn]
      simp

/-- `jsonLoadsPayload` inverts the embedded `json.dumps` payload (the
expiry string this program embeds never contains a quote). -/
theorem jsonLoads_payload (uid : Nat) (exp : List Char)
    (hq : ∀ c ∈ exp, c ≠ '"') :
    jsonLoadsPayload (strBytes (jsonPayloadChars uid exp)) = some (uid, exp) := by
  unfold jsonLoadsPayload strBytes jsonPayloadChars
  rw [List.map_map]
  simp only [Function.comp_def, Char.ofNat_toNat, List.map_id_fun', id_eq, List.append_assoc]
  have hcomma : (",\"exp\":\"".toList : List Char) = ',' :: "\"exp\":\"".toList := rfl
  have hclose : ("\"\x7d".toList : List Char) = '"' :: '\x7d' :: [] := rfl
  have hds : (natDec uid ++ ',' :: ("\"exp\":\"".toList ++ (exp ++ "\"\x7d".toList))).takeWhile
      isDigitCh = natDec uid :=
    takeWhile_prefix _ _ _ (fun x hx => natDec_isDigit uid x hx) (by decide)
  have hes : (exp ++ '"' :: '\x7d' :: []).takeWhile (fun c => decide (c ≠ '"')) = exp :=
    takeWhile_prefix _ _ _ (fun x hx => by simpa using hq x hx) (by decide)
  rw [consumeLit_append, hcomma]
  simp only [List.cons_append]
  simp only [hds, List.isEmpty_iff, natDec_ne_nil uid, if_false, List.drop_left]
  rw [show consumeLit (',' :: "\"exp\":\"".toList)
        (',' :: ("\"exp\":\"".toList ++ (exp ++ "\"\x7d".toList)))
      = consumeLit "\"exp\":\"".toList ("\"exp\":\"".toList ++ (exp ++ "\"\x7d".toList))
      from by simp [consumeLit]]
  rw [consumeLit_append, hclose]
  simp only [hes, List.drop_left, decNatAux_natDec]

/-- `hexChar` never yields a dot. -/
theorem hexChar_ne_dot (n : Nat) : hexChar n ≠ '.' := by
  rcases Nat.lt_or_ge n 16 with h | h
  · revert h; revert n; decide
  · unfold hexChar
    rw [List.getD_eq_getElem?_getD, List.getElem?_eq_none]
    · decide
    · have : ("0123456789abcdef".toList : List Char).length = 16 := by decide
      omega

/-- No character of a hex digest is a dot. -/
theorem hexdigest_ne_dot (bs : List Nat) : ∀ c ∈ hexdigest bs, c ≠ '.' := by
  induction bs with
  | nil => intro c hc; simp [hexdigest] at hc
  | cons b rest ih =>
    intro c hc
    rw [hexdigest] at hc
    rcases List.mem_cons.mp hc with rfl | hc
    · exact hexChar_ne_dot _
    rcases List.mem_cons.mp hc with rfl | hc
    · exact hexChar_ne_dot _
    · exact ih c hc

/-- A hex digest has two characters per byte. -/
theorem hexdigest_length (bs : List Nat) : (hexdigest bs).length = 2 * bs.length := by
  induction bs with
  | nil => rfl
  | cons b rest ih => rw [hexdigest]; simp [ih]; omega

/-- `rsplit(".", 1)` fails exactly on dot-free strings. -/
theorem rsplitDot_none (l : List Char) (h : ∀ c ∈ l, c ≠ '.') : rsplitDot l = none := by
  induction l with
  | nil => rfl
  | cons c cs ih =>
    rw [rsplitDot, ih (fun x hx => h x (by simp [hx]))]
    simp [h c (by simp)]

/-- `rsplit(".", 1)` splits at the last dot. -/
theorem rsplitDot_last (x y : List Char) (h : ∀ c ∈ y, c ≠ '.') :
    rsplitDot (x ++ '.' :: y) = some (x, y) := by
  induction x with
  | nil =>
    rw [List.nil_append, rsplitDot, rsplitDot_none y h]
    simp
  | cons c cs ih =>
    rw [List.cons_append, rsplitDot, ih]

/-! # Helper lemmas: calendar ordering -/

/-- The successor day is strictly later, whatever the fields hold. -/
theorem dateLtP_nextDay (d : PyDate) : dateLtP d (nextDay d) := by
  unfold nextDay dateLtP
  split_ifs <;> simp

/-- Field-lexicographic date order is transitive. -/
theorem dateLtP_trans {a b c : PyDate} (h1 : dateLtP a b) (h2 : dateLtP b c) :
    dateLtP a c := by
  unfold dateLtP at *
  omega

/-- Shifting by a positive number of days moves strictly later. -/
theorem dateLtP_addDays (k : Nat) (hk : 0 < k) (d : PyDate) : dateLtP d (addDays k d) := by
  induction k with
  | zero => omega
  | succ k ih =>
    unfold addDays at *
    rw [Function.iterate_succ_apply']
    rcases Nat.eq_zero_or_pos k with rfl | hk'
    · simpa using dateLtP_nextDay d
    · exact dateLtP_trans (ih hk') (dateLtP_nextDay _)

/-- A token's expiry is never before its issuance instant. -/
theorem not_dtLt_tokenExpiry (now : PyDateTime) : ¬ dtLt (tokenExpiry now) now := by
  have h := dateLtP_addDays _SESSION_DAYS (by norm_num [_SESSION_DAYS])
    ⟨now.year, now.month, now.day⟩
  simp only [tokenExpiry, dtLt] at *
  simp only [dateLtP] at h
  omega

/-! # Helper lemmas: character classes of the serialized payload -/

/-- Splitting a pointwise property over an append. -/
theorem allCh_append {P : Char → Prop} {xs ys : List Char}
    (hx : ∀ c ∈ xs, P c) (hy : ∀ c ∈ ys, P c) : ∀ c ∈ xs ++ ys, P c := by
  intro c hc
  rcases List.mem_append.mp hc with h | h
  · exact hx c h
  · exact hy c h

/-- Splitting a pointwise property over a cons. -/
theorem allCh_cons {P : Char → Prop} {x : Char} {xs : List Char}
    (h1 : P x) (h2 : ∀ c ∈ xs, P c) : ∀ c ∈ x :: xs, P c := by
  intro c hc
  rcases List.mem_cons.mp hc with rfl | h
  · exact h1
  · exact h2 c h

/-- A digit character is ASCII and is not a quote. -/
theorem digitChar_ascii (d : Nat) : (digitChar d).toNat < 128 ∧ digitChar d ≠ '"' := by
  have h := isDigitCh_toNat_le (isDigitCh_digitChar d)
  have hquote : ('"' : Char).toNat = 34 := rfl
  exact ⟨by omega, charNe_of_toNat_ne (by omega)⟩

/-- Pointwise property of a two-digit rendering. -/
theorem allCh_pad2 {P : Char → Prop} (hd : ∀ k, P (digitChar k)) (n : Nat) :
    ∀ c ∈ pad2 n, P c := by
  intro c hc
  simp only [pad2, List.mem_cons, List.not_mem_nil, or_false] at hc
  rcases hc with rfl | rfl <;> exact hd _

/-- Pointwise property of a four-digit rendering. -/
theorem allCh_pad4 {P : Char → Prop} (hd : ∀ k, P (digitChar k)) (n : Nat) :
    ∀ c ∈ pad4 n, P c := by
  intro c hc
  simp only [pad4, List.mem_cons, List.not_mem_nil, or_false] at hc
  rcases hc with rfl | rfl | rfl | rfl <;> exact hd _

/-- Pointwise property of a six-digit rendering. -/
theorem allCh_pad6 {P : Char → Prop} (hd : ∀ k, P (digitChar k)) (n : Nat) :
    ∀ c ∈ pad6 n, P c := by
  intro c hc
  simp only [pad6, List.mem_cons, List.not_mem_nil, or_false] at hc
  rcases hc with rfl | rfl | rfl | rfl | rfl | rfl <;> exact hd _

/-- Every character an `isoformat` emits is ASCII and is not a quote. -/
theorem isoformat_ascii (t : PyDateTime) :
    ∀ c ∈ isoformat t, c.toNat < 128 ∧ c ≠ '"' := by
  have hp2 : ∀ (n : Nat), ∀ c ∈ pad2 n, c.toNat < 128 ∧ c ≠ '"' := by
    intro n c hc
    simp only [pad2, List.mem_cons, List.not_mem_nil, or_false] at hc
    rcases hc with rfl | rfl <;> exact digitChar_ascii _
  have hp4 : ∀ (n : Nat), ∀ c ∈ pad4 n, c.toNat < 128 ∧ c ≠ '"' := by
    intro n c hc
    simp only [pad4, List.mem_cons, List.not_mem_nil, or_false] at hc
    rcases hc with rfl | rfl | rfl | rfl <;> exact digitChar_ascii _
  have hp6 : ∀ (n : Nat), ∀ c ∈ pad6 n, c.toNat < 128 ∧ c ≠ '"' := by
    intro n c hc
    simp only [pad6, List.mem_cons, List.not_mem_nil, or_false] at hc
    rcases hc with rfl | rfl | rfl | rfl | rfl | rfl <;> exact digitChar_ascii _
  intro c hc
  unfold isoformat isoDate at hc
  simp only [List.append_assoc] at hc
  rcases List.mem_append.mp hc with h | hc
  · exact hp4 _ c h
  rcases List.mem_append.mp hc with h | hc
  · rcases List.mem_cons.mp h with rfl | h
    · exact ⟨by decide, by decide⟩
    · exact hp2 _ c h
  rcases List.mem_append.mp hc with h | hc
  · rcases List.mem_cons.mp h with rfl | h
    · exact ⟨by decide, by decide⟩
    · exact hp2 _ c h
  rcases List.mem_cons.mp hc with rfl | hc
  · exact ⟨by decide, by decide⟩
  rcases List.mem_append.mp hc with h | hc
  · exact hp2 _ c h
  rcases List.mem_cons.mp hc with rfl | hc
  · exact ⟨by decide, by decide⟩
  rcases List.mem_append.mp hc with h | hc
  · exact hp2 _ c h
  rcases List.mem_cons.mp hc with rfl | hc
  · exact ⟨by decide, by decide⟩
  rcases List.mem_append.mp hc with h | hc
  · exact hp2 _ c h
  by_cases h0 : t.microsecond = 0
  · rw [if_pos h0] at hc
    simp at hc
  · rw [if_neg h0] at hc
    rcases List.mem_cons.mp hc with rfl | hc
    · exact ⟨by decide, by decide⟩
    · exact hp6 _ c hc

/-- Every byte of a serialized token payload is below 256 (it is ASCII). -/
theorem tokenPayload_lt (uid : Nat) (now : PyDateTime) :
    ∀ b ∈ tokenPayload uid now, b < 256 := by
  have hl1 : ∀ c ∈ ("\x7b\"uid\":".toList : List Char), c.toNat < 256 := by decide
  have hl2 : ∀ c ∈ (",\"exp\":\"".toList : List Char), c.toNat < 256 := by decide
  have hl3 : ∀ c ∈ ("\"\x7d".toList : List Char), c.toNat < 256 := by decide
  intro b hb
  unfold tokenPayload strBytes at hb
  rcases List.mem_map.mp hb with ⟨c, hc, rfl⟩
  unfold jsonPayloadChars at hc
  simp only [List.append_assoc] at hc
  rcases List.mem_append.mp hc with h | hc
  · exact hl1 c h
  rcases List.mem_append.mp hc with h | hc
  · obtain ⟨k, -, rfl⟩ := natDec_digit uid c h
    have := (digitChar_ascii k).1
    omega
  rcases List.mem_append.mp hc with h | hc
  · exact hl2 c h
  rcases List.mem_append.mp hc with h | hc
  · have := (isoformat_ascii (tokenExpiry now) c h).1
    omega
  · exact hl3 c hc

/-! # Claims C1-C4: the session token service -/

/-- C1: for every positive integer user id, verifying a token immediately
after it is issued for that user id (the expiry, thirty days out, is still
a constructible datetime, and verification happens at the issuance instant,
well before that expiry) returns that same user id. -/
theorem c1_verify_issue_roundtrip
    (mac : List Nat → List Nat → List Nat) (secret : List Nat) (uid : Nat)
    (now : PyDateTime) (hu : 0 < uid) (hexp : dtValid (tokenExpiry now) = true) :
    _decode_token mac secret (_make_token mac secret uid now) now = some uid := by
  have h1 : rsplitDot (b64EncodeBytes (tokenPayload uid now) ++ '.' ::
      hexdigest (mac secret (tokenPayload uid now)))
      = some (b64EncodeBytes (tokenPayload uid now),
          hexdigest (mac secret (tokenPayload uid now))) :=
    rsplitDot_last _ _ (hexdigest_ne_dot _)
  have h2 : pyB64Decode (b64EncodeBytes (tokenPayload uid now) ++ ['=', '='])
      = some (tokenPayload uid now) := b64_roundtrip _ (tokenPayload_lt uid now)
  have h3 : jsonLoadsPayload (tokenPayload uid now)
      = some (uid, isoformat (tokenExpiry now)) := by
    unfold tokenPayload
    exact jsonLoads_payload uid _ (fun c hc => (isoformat_ascii _ c hc).2)
  have h4 : fromisoformat (isoformat (tokenExpiry now)) = some (tokenExpiry now) :=
    fromisoformat_isoformat hexp
  simp only [_decode_token, _decode_token_body, _make_token, h1, h2, h3, h4]
  simp [not_dtLt_tokenExpiry now]

/-- Witness for C1 at user id 3 and the concrete instant `now0`. -/
theorem c1_verify_issue_roundtrip_witness :
    0 < 3 ∧ dtValid (tokenExpiry now0) = true ∧
      _decode_token mac0 secret0 (_make_token mac0 secret0 3 now0) now0 = some 3 :=
  ⟨by decide, by decide, c1_verify_issue_roundtrip mac0 secret0 3 now0 (by decide) (by decide)⟩

/-- C2 counterexample: the claim says a token whose embedded expiry equals
the moment of verification is invalid (`now >= expiry` rejected), but the
source only rejects `expiry < now`: `tok0`, whose embedded expiry is
exactly `vt0`, verifies to user 1 at `vt0` itself. -/
theorem c2_expiry_boundary_counterexample :
    _decode_token mac0 secret0 tok0 vt0 = some 1 := by decide

/-- C2 (amended): verification returns invalid whenever the embedded expiry
fails to parse or the current time is strictly later than the embedded
expiry, and this holds whether or not the supplied tag matches; at exact
equality of current time and expiry the token is not rejected. -/
theorem c2_expiry_check
    (mac : List Nat → List Nat → List Nat) (secret : List Nat) (token : List Char)
    (now : PyDateTime) (encoded sig : List Char) (payload : List Nat)
    (uid : Nat) (expStr : List Char)
    (h1 : rsplitDot token = some (encoded, sig))
    (h2 : pyB64Decode (encoded ++ ['=', '=']) = some payload)
    (h3 : jsonLoadsPayload payload = some (uid, expStr)) :
    (fromisoformat expStr = none → _decode_token mac secret token now = none)
    ∧ (∀ exp, fromisoformat expStr = some exp → dtLt exp now →
        _decode_token mac secret token now = none) := by
  constructor
  · intro h4
    simp only [_decode_token, _decode_token_body, h1, h2, h3, h4]
    by_cases hs : sig = hexdigest (mac secret payload) <;> simp [hs]
  · intro exp h4 h5
    simp only [_decode_token, _decode_token_body, h1, h2, h3, h4]
    by_cases hs : sig = hexdigest (mac secret payload) <;> simp [hs, h5]

/-- Witness for the amended C2: `tok0` verified long past its expiry is
invalid. -/
theorem c2_expiry_check_witness :
    dtLt vt0 late0 ∧ _decode_token mac0 secret0 tok0 late0 = none :=
  ⟨by decide,
    (c2_expiry_check mac0 secret0 tok0 late0
        (b64EncodeBytes (tokenPayload 1 now0))
        (hexdigest (mac0 secret0 (tokenPayload 1 now0)))
        (tokenPayload 1 now0) 1 (isoformat vt0)
        (by decide) (by decide) (by decide)).2
      vt0 (by decide) (by decide)⟩

/-- C3: replacing any single character of the tag portion of an issued
token (the hex signature after the last dot) with a different character
makes verification return invalid, at any verification instant. -/
theorem c3_tag_tamper
    (mac : List Nat → List Nat → List Nat)
    (h32 : ∀ k m, (mac k m).length = 32)
    (secret : List Nat) (uid : Nat) (now vt : PyDateTime)
    (pre post : List Char) (x c : Char)
    (hsig : hexdigest (mac secret (tokenPayload uid now)) = pre ++ x :: post)
    (hc : c ≠ x) :
    _decode_token mac secret
      (b64EncodeBytes (tokenPayload uid now) ++ '.' :: (pre ++ c :: post)) vt = none := by
  have hpost : ∀ ch ∈ post, ch ≠ '.' := by
    intro ch hch
    apply hexdigest_ne_dot (mac secret (tokenPayload uid now)) ch
    rw [hsig]
    simp [hch]
  have hpre : ∀ ch ∈ pre, ch ≠ '.' := by
    intro ch hch
    apply hexdigest_ne_dot (mac secret (tokenPayload uid now)) ch
    rw [hsig]
    simp [hch]
  by_cases hdot : c = '.'
  · subst hdot
    have hre : b64EncodeBytes (tokenPayload uid now) ++ '.' :: (pre ++ '.' :: post)
        = (b64EncodeBytes (tokenPayload uid now) ++ '.' :: pre) ++ '.' :: post := by
      simp
    rw [hre]
    have h1 := rsplitDot_last (b64EncodeBytes (tokenPayload uid now) ++ '.' :: pre) post hpost
    simp only [_decode_token, _decode_token_body, h1]
    rcases hb : pyB64Decode ((b64EncodeBytes (tokenPayload uid now) ++ '.' :: pre)
        ++ ['=', '=']) with _ | p
    · simp
    · have hlen2 : post.length < 64 := by
        have hl := congrArg List.length hsig
        rw [hexdigest_length, h32] at hl
        simp at hl
        omega
      have hne : post ≠ hexdigest (mac secret p) := by
        intro he
        have : post.length = 64 := by rw [he, hexdigest_length, h32]
        omega
      simp [hne]
  · have htag : ∀ ch ∈ pre ++ c :: post, ch ≠ '.' := by
      intro ch hch
      rcases List.mem_append.mp hch with h | h
      · exact hpre ch h
      · rcases List.mem_cons.mp h with rfl | h
        · exact hdot
        · exact hpost ch h
    have h1 := rsplitDot_last (b64EncodeBytes (tokenPayload uid now)) (pre ++ c :: post) htag
    have h2 := b64_roundtrip (tokenPayload uid now) (tokenPayload_lt uid now)
    have hne : pre ++ c :: post ≠ hexdigest (mac secret (tokenPayload uid now)) := by
      rw [hsig]
      intro he
      have := List.append_cancel_left he
      exact hc (List.cons_eq_cons.mp this).1
    simp only [_decode_token, _decode_token_body, h1, h2]
    simp [hne]

/-- Witness for C3: flipping the first tag character of `tok0` from `'0'`
to `'z'` invalidates it. -/
theorem c3_tag_tamper_witness :
    hexdigest (mac0 secret0 (tokenPayload 1 now0)) = [] ++ '0' :: tail0
    ∧ ('z' : Char) ≠ '0'
    ∧ _decode_token mac0 secret0
        (b64EncodeBytes (tokenPayload 1 now0) ++ '.' :: ([] ++ 'z' :: tail0)) vt0 = none :=
  ⟨by decide, by decide,
    c3_tag_tamper mac0 (fun k m => by simp [mac0]) secret0 1 now0 vt0 [] tail0 '0' 'z'
      (by decide) (by decide)⟩

/-- C4: token verification never lets an exception escape - every raising
path of the body is caught and returned as the invalid result - and in
particular a string with no separator (including the empty string), a
string whose payload part is not valid base64, and a payload that is not
the expected JSON document all verify to invalid. -/
theorem c4_decode_total
    (mac : List Nat → List Nat → List Nat) (secret : List Nat) :
    (∀ token now msg, _decode_token_body mac secret token now = Except.error msg →
        _decode_token mac secret token now = none)
    ∧ (∀ token now, (∀ ch ∈ token, ch ≠ '.') → _decode_token mac secret token now = none)
    ∧ (∀ token now encoded sig, rsplitDot token = some (encoded, sig) →
        pyB64Decode (encoded ++ ['=', '=']) = none →
        _decode_token mac secret token now = none)
    ∧ (∀ token now encoded sig payload, rsplitDot token = some (encoded, sig) →
        pyB64Decode (encoded ++ ['=', '=']) = some payload →
        jsonLoadsPayload payload = none →
        _decode_token mac secret token now = none) := by
  refine ⟨?_, ?_, ?_, ?_⟩
  · intro token now msg h
    simp [_decode_token, h]
  · intro token now h
    simp [_decode_token, _decode_token_body, rsplitDot_none token h]
  · intro token now encoded sig h1 h2
    simp [_decode_token, _decode_token_body, h1, h2]
  · intro token now encoded sig payload h1 h2 h3
    simp only [_decode_token, _decode_token_body, h1, h2, h3]
    by_cases hs : sig = hexdigest (mac secret payload) <;> simp [hs]

/-- Witness for C4 on the empty string, a dot-free string, an invalid
base64 payload and a non-JSON payload. -/
theorem c4_decode_total_witness :
    _decode_token mac0 secret0 "".toList vt0 = none
    ∧ _decode_token mac0 secret0 "nodots".toList vt0 = none
    ∧ _decode_token mac0 secret0 "A.x".toList vt0 = none
    ∧ _decode_token mac0 secret0 "aGVsbG8=.abc".toList vt0 = none :=
  ⟨(c4_decode_total mac0 secret0).2.1 "".toList vt0 (by decide),
   (c4_decode_total mac0 secret0).2.1 "nodots".toList vt0 (by decide),
   (c4_decode_total mac0 secret0).2.2.1 "A.x".toList vt0 "A".toList "x".toList
     (by decide) (by decide),
   (c4_decode_total mac0 secret0).2.2.2 "aGVsbG8=.abc".toList vt0 "aGVsbG8=".toList
     "abc".toList (strBytes "hello".toList) (by decide) (by decide) (by decide)⟩

/-! # Helper lemmas: the import loops -/

/-- One step of the multi-entry loop, with the recursive pair exposed. -/
theorem entriesLoop_cons (h ct : List Char) (rest : List (List Char × List Char)) :
    entriesLoop ((h, ct) :: rest)
      = match _parse_date_from_string h with
        | none => ((entriesLoop rest).1,
            ("Could not parse date from header '".toList ++ pyStrip h
                ++ "' — skipped.".toList) :: (entriesLoop rest).2)
        | some d => (⟨d, pyStrip ct⟩ :: (entriesLoop rest).1, (entriesLoop rest).2) := by
  rcases he : entriesLoop rest with ⟨es, ws⟩
  rcases hd : _parse_date_from_string h with _ | d <;> simp [entriesLoop, he, hd]

/-- The multi-entry loop keeps exactly the dateable headers and warns
exactly on the undateable ones. -/
theorem entriesLoop_lengths (ps : List (List Char × List Char)) :
    (entriesLoop ps).1.length
        = (ps.filter fun p => (_parse_date_from_string p.1).isSome).length
    ∧ (entriesLoop ps).2.length
        = (ps.filter fun p => (_parse_date_from_string p.1).isNone).length := by
  induction ps with
  | nil => exact ⟨rfl, rfl⟩
  | cons p rest ih =>
    obtain ⟨h, ct⟩ := p
    by_cases hd : (_parse_date_from_string h).isSome
    · rcases Option.isSome_iff_exists.mp hd with ⟨d, hd'⟩
      constructor <;> simp [entriesLoop_cons, hd', List.filter_cons, ih.1, ih.2]
    · have hd' : _parse_date_from_string h = none := by
        simpa using hd
      constructor <;> simp [entriesLoop_cons, hd', List.filter_cons, ih.1, ih.2]

/-- Every entry the multi-entry loop emits takes its content from one of
the paired segments. -/
theorem entriesLoop_content (ps : List (List Char × List Char)) :
    ∀ e ∈ (entriesLoop ps).1, ∃ p ∈ ps, e.content = pyStrip p.2 := by
  induction ps with
  | nil => intro e he; simp [entriesLoop] at he
  | cons p rest ih =>
    obtain ⟨h, ct⟩ := p
    intro e he
    rw [entriesLoop_cons] at he
    rcases hd : _parse_date_from_string h with _ | d
    · rw [hd] at he
      obtain ⟨p', hp', heq⟩ := ih e he
      exact ⟨p', by simp [hp'], heq⟩
    · rw [hd] at he
      rcases List.mem_cons.mp he with rfl | he
      · exact ⟨(h, ct), by simp, rfl⟩
      · obtain ⟨p', hp', heq⟩ := ih e he
        exact ⟨p', by simp [hp'], heq⟩

/-- `re.split` returns one piece more than `re.findall` returns matches. -/
theorem headerSplit_length (t : List Char) :
    (headerSplit t).length = (headerFindall t).length + 1 := by
  simp [headerSplit, headerFindall]

/-- Filtering a zip on the first component sees the first list's counts. -/
theorem zip_filter_fst_length {α β : Type} (P : α → Bool) :
    ∀ (hs : List α) (ps : List β), hs.length = ps.length →
      ((hs.zip ps).filter fun p => P p.1).length = (hs.filter P).length := by
  intro hs
  induction hs with
  | nil => intro ps _; simp
  | cons a hs ih =>
    intro ps h
    cases ps with
    | nil => simp at h
    | cons b ps =>
      simp only [List.zip_cons_cons, List.filter_cons]
      cases hP : P a <;> simp [hP, ih ps (by simpa using h)]

/-- One step of the archive member loop, with the recursive pair exposed. -/
theorem zipLoop_cons (name : List Char) (raw : List Nat)
    (rest : List (List Char × List Nat)) :
    zipLoop ((name, raw) :: rest)
      = if zipMemberSkipped name then zipLoop rest
        else match _parse_date_from_string name with
          | none => ((zipLoop rest).1,
              ("Could not parse date from filename: ".toList ++ name
                  ++ " — skipped.".toList) :: (zipLoop rest).2)
          | some d => (⟨d, pyStrip (_decode raw)⟩ :: (zipLoop rest).1, (zipLoop rest).2) := by
  rcases he : zipLoop rest with ⟨es, ws⟩
  rcases hd : _parse_date_from_string name with _ | d <;>
    by_cases hs : zipMemberSkipped name <;> simp [zipLoop, he, hd, hs]

/-- The archive loop keeps exactly the visible dateable members and warns
exactly on the visible undateable ones. -/
theorem zipLoop_lengths (ms : List (List Char × List Nat)) :
    (zipLoop ms).1.length = (ms.filter fun m =>
        !zipMemberSkipped m.1 && (_parse_date_from_string m.1).isSome).length
    ∧ (zipLoop ms).2.length = (ms.filter fun m =>
        !zipMemberSkipped m.1 && (_parse_date_from_string m.1).isNone).length := by
  induction ms with
  | nil => exact ⟨rfl, rfl⟩
  | cons m rest ih =>
    obtain ⟨name, raw⟩ := m
    by_cases hs : zipMemberSkipped name
    · constructor <;> simp [zipLoop_cons, hs, List.filter_cons, ih.1, ih.2]
    · by_cases hd : (_parse_date_from_string name).isSome
      · rcases Option.isSome_iff_exists.mp hd with ⟨d, hd'⟩
        constructor <;> simp [zipLoop_cons, hs, hd', List.filter_cons, ih.1, ih.2]
      · have hd' : _parse_date_from_string name = none := by simpa using hd
        constructor <;> simp [zipLoop_cons, hs, hd', List.filter_cons, ih.1, ih.2]

/-- An archive of only directory markers and metadata artifacts yields
nothing and warns about nothing. -/
theorem zipLoop_all_skipped (ms : List (List Char × List Nat))
    (h : ∀ m ∈ ms, zipMemberSkipped m.1 = true) : zipLoop ms = ([], []) := by
  induction ms with
  | nil => rfl
  | cons m rest ih =>
    obtain ⟨name, raw⟩ := m
    rw [zipLoop_cons, if_pos (h (name, raw) (by simp))]
    exact ih (fun x hx => h x (by simp [hx]))

/-! # Claims C5-C10: the import pipeline -/

/-- C5: classification is archive-extension first (any `.zip` filename is
the archive shape whatever the content, whose bytes `parse_upload` never
decodes as text), then content delimiter, then filename date, else
undated. -/
theorem c5_detect_format_order :
    (∀ filename content : List Char, ".zip".toList.isSuffixOf (filename.map lowerCh) = true →
        detect_format filename content = "zip_750words")
    ∧ (∀ filename content : List Char,
        ".zip".toList.isSuffixOf (filename.map lowerCh) = false →
        headerSearchB content = true →
        detect_format filename content = "single_750words")
    ∧ (∀ (filename content : List Char) (d : PyDate),
        ".zip".toList.isSuffixOf (filename.map lowerCh) = false →
        headerSearchB content = false →
        _parse_date_from_string filename = some d →
        detect_format filename content = "dated_file")
    ∧ (∀ filename content : List Char,
        ".zip".toList.isSuffixOf (filename.map lowerCh) = false →
        headerSearchB content = false →
        _parse_date_from_string filename = none →
        detect_format filename content = "undated_file")
    ∧ (∀ (zipRead : List Nat → Except (List Char) (List (List Char × List Nat)))
        (today : PyDate) (filename : List Char) (file_bytes : List Nat),
        ".zip".toList.isSuffixOf (filename.map lowerCh) = true →
        parse_upload zipRead today filename file_bytes
          = parse_zip_750words zipRead file_bytes) := by
  refine ⟨?_, ?_, ?_, ?_, ?_⟩
  · intro filename content hz
    simp at hz
    simp [detect_format, hz]
  · intro filename content hz hh
    simp at hz
    simp [detect_format, hz, hh]
  · intro filename content d hz hh hd
    simp at hz
    simp [detect_format, hz, hh, hd]
  · intro filename content hz hh hd
    simp at hz
    simp [detect_format, hz, hh, hd]
  · intro zipRead today filename file_bytes hz
    simp at hz
    simp [parse_upload, detect_format, hz]

/-- Witness for C5 on the four shapes and the zip dispatch. -/
theorem c5_detect_format_order_witness :
    detect_format "export.ZIP".toList "=== January 1, 2024 ===".toList = "zip_750words"
    ∧ detect_format "2024-01-01.txt".toList "=== January 1, 2024 ===\nhi".toList
        = "single_750words"
    ∧ detect_format "2024-01-01.txt".toList "plain prose".toList = "dated_file"
    ∧ detect_format "draft.txt".toList "plain prose".toList = "undated_file"
    ∧ parse_upload zrMeta ⟨2024, 1, 1⟩ "export.zip".toList []
        = parse_zip_750words zrMeta [] :=
  ⟨c5_detect_format_order.1 "export.ZIP".toList "=== January 1, 2024 ===".toList (by decide),
   c5_detect_format_order.2.1 "2024-01-01.txt".toList
     "=== January 1, 2024 ===\nhi".toList (by decide) (by decide),
   c5_detect_format_order.2.2.1 "2024-01-01.txt".toList "plain prose".toList
     ⟨2024, 1, 1⟩ (by decide) (by decide) (by decide),
   c5_detect_format_order.2.2.2.1 "draft.txt".toList "plain prose".toList
     (by decide) (by decide) (by decide),
   c5_detect_format_order.2.2.2.2 zrMeta ⟨2024, 1, 1⟩ "export.zip".toList []
     (by decide)⟩

/-- C6: date extraction tries the ISO grammar first, falls through to the
natural-language grammar when the ISO match is not a valid calendar date,
and on total failure yields `none` - on the four dictated inputs and on an
input whose lexically matching ISO candidate is calendar-invalid while a
natural-language date follows. -/
theorem c6_date_extraction :
    _parse_date_from_string "journal_2024-03-05.txt".toList = some ⟨2024, 3, 5⟩
    ∧ _parse_date_from_string "March 5, 2024.txt".toList = some ⟨2024, 3, 5⟩
    ∧ _parse_date_from_string "notes.txt".toList = none
    ∧ _parse_date_from_string "2024-13-40.txt".toList = none
    ∧ _parse_date_from_string "2024-13-40 March 5, 2024".toList = some ⟨2024, 3, 5⟩ := by
  exact ⟨by decide, by decide, by decide, by decide, by decide⟩

/-- C7: multi-entry parsing fails per segment: a three-header input with
exactly one undateable header yields exactly two entries and one warning;
in general the entries are exactly the dateable headers and the warnings
exactly the undateable ones; and a delimiter-free input yields zero entries
plus the single redirecting warning. -/
theorem c7_per_segment_failure :
    (∀ (text h1 h2 h3 : List Char) (d1 d3 : PyDate),
        headerFindall text = [h1, h2, h3] →
        _parse_date_from_string h1 = some d1 →
        _parse_date_from_string h2 = none →
        _parse_date_from_string h3 = some d3 →
        (parse_single_750words text).1.length = 2
          ∧ (parse_single_750words text).2.length = 1)
    ∧ (∀ text : List Char, headerFindall text ≠ [] →
        (parse_single_750words text).1.length
            = ((headerFindall text).filter fun h =>
                (_parse_date_from_string h).isSome).length
          ∧ (parse_single_750words text).2.length
            = ((headerFindall text).filter fun h =>
                (_parse_date_from_string h).isNone).length)
    ∧ (∀ text : List Char, headerFindall text = [] →
        parse_single_750words text
          = ([], ["No date headers found — use 'dated file' import instead.".toList])) := by
  have hgen : ∀ text : List Char, headerFindall text ≠ [] →
      (parse_single_750words text).1.length
          = ((headerFindall text).filter fun h =>
              (_parse_date_from_string h).isSome).length
        ∧ (parse_single_750words text).2.length
          = ((headerFindall text).filter fun h =>
              (_parse_date_from_string h).isNone).length := by
    intro text hne
    have hlen : (headerFindall text).length = ((headerSplit text).drop 1).length := by
      simp [headerSplit_length]
    simp only [parse_single_750words, List.isEmpty_iff, if_neg hne]
    constructor
    · rw [(entriesLoop_lengths _).1]
      exact zip_filter_fst_length (fun h => (_parse_date_from_string h).isSome) _ _ hlen
    · rw [(entriesLoop_lengths _).2]
      exact zip_filter_fst_length (fun h => (_parse_date_from_string h).isNone) _ _ hlen
  refine ⟨?_, hgen, ?_⟩
  · intro text h1 h2 h3 d1 d3 hfind hd1 hd2 hd3
    have := hgen text (by simp [hfind])
    rw [hfind] at this
    simpa [List.filter_cons, hd1, hd2, hd3] using this
  · intro text h
    simp [parse_single_750words, h]

/-- Witness for C7 on the three-section fixture and a header-free string. -/
theorem c7_per_segment_failure_witness :
    headerFindall text3 = ["=== 2024-01-05 ===".toList, "=== nonsense ===".toList,
        "=== 2024-01-07 ===".toList]
    ∧ (parse_single_750words text3).1.length = 2
    ∧ (parse_single_750words text3).2.length = 1
    ∧ parse_single_750words "no headers".toList
        = ([], ["No date headers found — use 'dated file' import instead.".toList]) :=
  ⟨by decide,
   (c7_per_segment_failure.1 text3 "=== 2024-01-05 ===".toList "=== nonsense ===".toList
      "=== 2024-01-07 ===".toList ⟨2024, 1, 5⟩ ⟨2024, 1, 7⟩
      (by decide) (by decide) (by decide) (by decide)).1,
   (c7_per_segment_failure.1 text3 "=== 2024-01-05 ===".toList "=== nonsense ===".toList
      "=== 2024-01-07 ===".toList ⟨2024, 1, 5⟩ ⟨2024, 1, 7⟩
      (by decide) (by decide) (by decide) (by decide)).2,
   c7_per_segment_failure.2.2 "no headers".toList (by decide)⟩

/-- C8: archive parsing skips directory markers and `__MACOSX` members
silently (the dictated two-member archive yields exactly one entry and no
warning), keeps exactly the visible dateable members while warning exactly
on the visible undateable ones (no member aborts the batch), and turns a
corrupt container into zero entries plus one warning. -/
theorem c8_archive_error_handling :
    (∀ (zipRead : List Nat → Except (List Char) (List (List Char × List Nat)))
        (file_bytes : List Nat) (n1 : List Char) (r1 : List Nat) (n2 : List Char)
        (r2 : List Nat) (d : PyDate),
        zipRead file_bytes = Except.ok [(n1, r1), (n2, r2)] →
        zipMemberSkipped n1 = false →
        _parse_date_from_string n1 = some d →
        "__MACOSX".toList.isPrefixOf n2 = true →
        parse_zip_750words zipRead file_bytes = ([⟨d, pyStrip (_decode r1)⟩], []))
    ∧ (∀ (zipRead : List Nat → Except (List Char) (List (List Char × List Nat)))
        (file_bytes : List Nat) (ms : List (List Char × List Nat)),
        zipRead file_bytes = Except.ok ms →
        (parse_zip_750words zipRead file_bytes).1.length
            = (ms.filter fun m =>
                !zipMemberSkipped m.1 && (_parse_date_from_string m.1).isSome).length
          ∧ (parse_zip_750words zipRead file_bytes).2.length
            = (ms.filter fun m =>
                !zipMemberSkipped m.1 && (_parse_date_from_string m.1).isNone).length)
    ∧ (∀ (zipRead : List Nat → Except (List Char) (List (List Char × List Nat)))
        (file_bytes : List Nat) (e : List Char),
        zipRead file_bytes = Except.error e →
        parse_zip_750words zipRead file_bytes
          = ([], ["Invalid zip file: ".toList ++ e])) := by
  refine ⟨?_, ?_, ?_⟩
  · intro zipRead file_bytes n1 r1 n2 r2 d hok hs1 hd1 hmac
    simp only [List.isPrefixOf_iff_prefix] at hmac
    have hs2 : zipMemberSkipped n2 = true := by
      simp only [zipMemberSkipped, Bool.or_eq_true, beq_iff_eq, List.isPrefixOf_iff_prefix]
      exact Or.inr hmac
    have htail : zipLoop [(n2, r2)] = ([], []) :=
      zipLoop_all_skipped _ (by
        intro m hm
        rcases List.mem_singleton.mp hm with rfl
        exact hs2)
    simp [parse_zip_750words, hok, zipLoop_cons, hs1, hd1, htail]
  · intro zipRead file_bytes ms hok
    have := zipLoop_lengths ms
    simp only [parse_zip_750words, hok]
    exact this
  · intro zipRead file_bytes e herr
    simp [parse_zip_750words, herr]

/-- Witness for C8 on the two-member fixture and the corrupt fixture. -/
theorem c8_archive_error_handling_witness :
    parse_zip_750words zrOk []
        = ([⟨⟨2024, 1, 5⟩, pyStrip (_decode (strBytes "hi".toList))⟩], [])
    ∧ parse_zip_750words zrBad []
        = ([], ["Invalid zip file: ".toList ++ "File is not a zip file".toList]) :=
  ⟨c8_archive_error_handling.1 zrOk [] "2024-01-05.txt".toList (strBytes "hi".toList)
      "__MACOSX/._ignore".toList [120] ⟨2024, 1, 5⟩ rfl (by decide) (by decide) (by decide),
   c8_archive_error_handling.2.2 zrBad [] "File is not a zip file".toList rfl⟩

/-- C9 (implicit): the text before the first delimiter is silently
discarded - the parse depends only on the matched headers and the segments
after them, every returned entry's content comes from those following
segments, and the warning count equals the count of undateable headers, so
the leading segment neither appears in an entry nor produces a warning. -/
theorem c9_leading_segment_dropped :
    (∀ t1 t2 : List Char, headerFindall t1 = headerFindall t2 →
        (headerSplit t1).drop 1 = (headerSplit t2).drop 1 →
        parse_single_750words t1 = parse_single_750words t2)
    ∧ (∀ (t : List Char) (e : ParsedEntry), e ∈ (parse_single_750words t).1 →
        e.content ∈ ((headerSplit t).drop 1).map pyStrip)
    ∧ (∀ t : List Char, headerFindall t ≠ [] →
        (parse_single_750words t).2.length
          = ((headerFindall t).filter fun h =>
              (_parse_date_from_string h).isNone).length) := by
  refine ⟨?_, ?_, ?_⟩
  · intro t1 t2 hf hs
    simp only [parse_single_750words]
    rw [hf, hs]
  · intro t e he
    by_cases hne : headerFindall t = []
    · simp [parse_single_750words, hne] at he
    · simp only [parse_single_750words, List.isEmpty_iff, if_neg hne] at he
      obtain ⟨p, hp, heq⟩ := entriesLoop_content _ e he
      have hsnd : p.2 ∈ (headerSplit t).drop 1 := (List.of_mem_zip hp).2
      exact heq ▸ List.mem_map_of_mem pyStrip hsnd
  · intro t hne
    have hlen : (headerFindall t).length = ((headerSplit t).drop 1).length := by
      simp [headerSplit_length]
    simp only [parse_single_750words, List.isEmpty_iff, if_neg hne]
    rw [(entriesLoop_lengths _).2]
    exact zip_filter_fst_length (fun h => (_parse_date_from_string h).isNone) _ _ hlen

/-- Witness for C9: a preamble before the first delimiter changes nothing,
the single entry's content is the following segment, and there is no
warning. -/
theorem c9_leading_segment_dropped_witness :
    headerFindall "PREAMBLE\n=== 2024-01-05 ===\nbody".toList
        = headerFindall "=== 2024-01-05 ===\nbody".toList
    ∧ parse_single_750words "PREAMBLE\n=== 2024-01-05 ===\nbody".toList
        = parse_single_750words "=== 2024-01-05 ===\nbody".toList
    ∧ (⟨⟨2024, 1, 5⟩, "body".toList⟩ : ParsedEntry).content
        ∈ ((headerSplit "PREAMBLE\n=== 2024-01-05 ===\nbody".toList).drop 1).map pyStrip
    ∧ (parse_single_750words "PREAMBLE\n=== 2024-01-05 ===\nbody".toList).2.length = 0 :=
  ⟨by decide,
   c9_leading_segment_dropped.1 "PREAMBLE\n=== 2024-01-05 ===\nbody".toList
     "=== 2024-01-05 ===\nbody".toList (by decide) (by decide),
   c9_leading_segment_dropped.2.1 "PREAMBLE\n=== 2024-01-05 ===\nbody".toList
     ⟨⟨2024, 1, 5⟩, "body".toList⟩ (by decide),
   by
     rw [c9_leading_segment_dropped.2.2 "PREAMBLE\n=== 2024-01-05 ===\nbody".toList
       (by decide)]
     decide⟩

/-- C10 (implicit): an empty result need not come with a warning - a
well-formed archive whose member list holds only directory markers and
`__MACOSX` artifacts (or nothing) makes `parse_upload` return zero entries
and zero warnings. -/
theorem c10_empty_zip_silent
    (zipRead : List Nat → Except (List Char) (List (List Char × List Nat)))
    (today : PyDate) (filename : List Char) (file_bytes : List Nat)
    (ms : List (List Char × List Nat))
    (hz : ".zip".toList.isSuffixOf (filename.map lowerCh) = true)
    (hok : zipRead file_bytes = Except.ok ms)
    (hskip : ∀ m ∈ ms, zipMemberSkipped m.1 = true) :
    parse_upload zipRead today filename file_bytes = ([], []) := by
  simp at hz
  simp [parse_upload, detect_format, hz, parse_zip_750words, hok,
    zipLoop_all_skipped ms hskip]

/-- Witness for C10 on the metadata-only fixture. -/
theorem c10_empty_zip_silent_witness :
    parse_upload zrMeta ⟨2024, 1, 1⟩ "export.zip".toList [] = ([], []) :=
  c10_empty_zip_silent zrMeta ⟨2024, 1, 1⟩ "export.zip".toList []
    [("__MACOSX/a".toList, []), ("folder/".toList, [])] (by decide) rfl (by decide)
